import Mathlib

/-! # Keys indexer (`tools/keys-indexer`): embedding and verified properties

A shallow embedding of `indexer.go` / `main.go`.

* Go strings are Lean `String`s; all text processing is done on the list of
  runes `String.data`.  Go compares strings byte-wise, which on well-formed
  UTF-8 is the lexicographic order of the rune lists.
* The filesystem, the JSON decoder, the JSON-schema validator and the other
  services of the Go runtime that `Run` calls are fields of `World`.
* The pieces of the Go standard library whose tables are not part of the
  repository (`%q` quoting, the Unicode lower-case table beyond ASCII) are
  fields of `Lib`; everything else (`strings.TrimSpace`, `filepath.Clean`,
  `filepath.Join`, `filepath.IsAbs` for Unix paths) is defined here.
* The loop of `Run` is a left fold of `processEntry` over the sorted entries,
  threading the five accumulators of the Go function as a `RunState`.
-/

namespace KeysIndexer

/-! ## Constants (`main.go`) -/

def metadataSchemaVersion : String := "1.0.0"

def indexSchemaVersion : String := "1.0.0"

def toolVersion : String := "0.1.0"

/-! ## Data model (`indexer.go`, lines 21-98) -/

structure Config where
  ArtifactsDir : String
  OutputDir : String
  SchemaDir : String
  Strict : Bool
deriving DecidableEq, Repr

structure ArtifactMetadata where
  ID : String
  Title : String
  Description : String
  Tags : List String
  Categories : List String
  ToolsSupported : List String
  CreatedAt : Option String
  UpdatedAt : Option String
  SchemaVersion : String
  ContentPath : String
  License : Option String
  SafetyNotes : Option String
deriving DecidableEq, Repr

structure ValidationMessage where
  Message : String
  ArtifactID : String
  File : String
deriving DecidableEq, Repr

structure ManifestFile where
  Path : String
  SHA256 : String
deriving DecidableEq, Repr

structure Manifest where
  Files : List ManifestFile
deriving DecidableEq, Repr

structure OutputPaths where
  IndexJSON : String
  ValidationReport : String
  ArtifactsManifest : String
deriving DecidableEq, Repr

structure IndexArtifact where
  ID : String
  Slug : String
  Title : String
  Description : String
  Tags : List String
  Categories : List String
  ToolsSupported : List String
  CreatedAt : Option String
  UpdatedAt : Option String
  SchemaVersion : String
  ContentPath : String
  License : Option String
  SafetyNotes : Option String
  SearchableText : String
deriving DecidableEq, Repr

structure IndexOutput where
  SchemaVersion : String
  ToolVersion : String
  ArtifactCount : Nat
  Warnings : List ValidationMessage
  Errors : List ValidationMessage
  OutputPaths : OutputPaths
  Manifest : Manifest
  Artifacts : List IndexArtifact
deriving DecidableEq, Repr

structure ValidationReport where
  SchemaVersion : String
  ToolVersion : String
  GeneratedAt : String
  Warnings : List ValidationMessage
  Errors : List ValidationMessage
deriving DecidableEq, Repr

/-! ## Go standard library: strings and sorting -/

/-- Library tables that are not part of the repository: `quote` is the `%q`
verb of `fmt` (`strconv.Quote`), `lowerTable` is `unicode.ToLower` on the runes
above `unicode.MaxASCII`. -/
structure Lib where
  quote : String → String
  lowerTable : Char → Char

/-- Go `unicode.IsSpace`: the Latin-1 cases and the `White_Space` table. -/
def isSpace (r : Char) : Bool :=
  let n := r.toNat
  (0x09 ≤ n && n ≤ 0x0D) || n == 0x20 || n == 0x85 || n == 0xA0 || n == 0x1680 ||
    (0x2000 ≤ n && n ≤ 0x200A) || n == 0x2028 || n == 0x2029 || n == 0x202F ||
    n == 0x205F || n == 0x3000

/-- Go `strings.TrimSpace`: drop the leading and the trailing white space. -/
def TrimSpace (s : String) : String :=
  ⟨((s.data.dropWhile isSpace).reverse.dropWhile isSpace).reverse⟩

/-- Go `unicode.ToLower`: ASCII is handled inline, the rest by the case table. -/
def unicodeToLower (L : Lib) (r : Char) : Char :=
  if r.toNat ≤ 0x7F then
    if 'A'.toNat ≤ r.toNat ∧ r.toNat ≤ 'Z'.toNat then Char.ofNat (r.toNat + 32) else r
  else L.lowerTable r

/-- Go `strings.ToLower`: every rune is mapped through `unicode.ToLower`. -/
def ToLower (L : Lib) (s : String) : String :=
  ⟨s.data.map (unicodeToLower L)⟩

/-- Go `strings.HasPrefix`. -/
def HasPrefix (s pre : String) : Bool :=
  pre.data.isPrefixOf s.data

/-- Go `strings.HasSuffix`. -/
def HasSuffix (s suf : String) : Bool :=
  suf.data.isSuffixOf s.data

/-- Go `a <= b` on strings, that is `!(b < a)`, on the rune lists. -/
def strLE (a b : String) : Prop := ¬ b.data < a.data

instance strLE_decidable : DecidableRel strLE := fun a b =>
  inferInstanceAs (Decidable (¬ b.data < a.data))

/-- Go `sort.Strings`. -/
def sortStrings (l : List String) : List String :=
  l.insertionSort strLE

/-- Go `sort.Slice(xs, func(i, j) bool { return key(xs[i]) < key(xs[j]) })`.
The library sort is not stable; the model inserts one element at a time, and
any two correct sorts agree up to the order of elements with equal keys. -/
def sortSliceBy {α : Type} (key : α → String) (l : List α) : List α :=
  l.insertionSort (fun a b => strLE (key a) (key b))

/-! ## `normalizeList` (`indexer.go`, lines 311-333) -/

/-- The accumulators of the loop of `normalizeList`. -/
structure NormState where
  normalized : List String
  warnings : List ValidationMessage
  seen : List String
deriving DecidableEq, Repr

/-- One iteration of the loop of `normalizeList`. -/
def normalizeStep (L : Lib) (artifactID file : String) (st : NormState) (value : String) :
    NormState :=
  let trimmed := TrimSpace value
  if trimmed = "" then st
  else
    let lower := ToLower L trimmed
    let warnings :=
      if lower ≠ trimmed then
        st.warnings ++ [⟨"normalized value " ++ L.quote trimmed ++ " to " ++ L.quote lower,
          artifactID, file⟩]
      else st.warnings
    if lower ∈ st.seen then
      { st with warnings := warnings ++
          [⟨"duplicate value " ++ L.quote lower ++ " removed", artifactID, file⟩] }
    else
      { normalized := st.normalized ++ [lower], warnings := warnings, seen := lower :: st.seen }

def normalizeList (L : Lib) (values : List String) (artifactID file : String) :
    List String × List ValidationMessage :=
  let st := values.foldl (normalizeStep L artifactID file) ⟨[], [], []⟩
  (sortStrings st.normalized, st.warnings)

/-! ## `isValidID` (`indexer.go`, lines 335-355) -/

/-- The `for i, r := range id` loop of `isValidID`; `i` is the byte offset of `r`. -/
def isValidIDLoop : Nat → List Char → Bool
  | _, [] => true
  | i, r :: rest =>
    if 'a'.toNat ≤ r.toNat ∧ r.toNat ≤ 'z'.toNat then isValidIDLoop (i + r.utf8Size) rest
    else if '0'.toNat ≤ r.toNat ∧ r.toNat ≤ '9'.toNat then isValidIDLoop (i + r.utf8Size) rest
    else if r = '-' ∨ r = '_' then isValidIDLoop (i + r.utf8Size) rest
    else if i = 0 then false
    else false

def isValidID (id : String) : Bool :=
  if id = "" then false else isValidIDLoop 0 id.data

/-- The character class `[a-z0-9_-]` of the identifier grammar. -/
def isIDChar (r : Char) : Bool :=
  ('a'.toNat ≤ r.toNat && r.toNat ≤ 'z'.toNat) || ('0'.toNat ≤ r.toNat && r.toNat ≤ '9'.toNat) ||
    r == '-' || r == '_'

/-! ## `buildSearchableText` (`indexer.go`, lines 357-378) -/

/-- The dynamically typed arguments of `buildSearchableText`. -/
inductive Part where
  | str (value : String)
  | strs (value : List String)
deriving DecidableEq, Repr

/-- The text appended to the builder for one string of a part. -/
def writePart (L : Lib) (builder value : String) : String :=
  if value = "" then builder else builder ++ ToLower L value ++ " "

def buildSearchableText (L : Lib) (parts : List Part) : String :=
  TrimSpace (parts.foldl (fun builder part =>
    match part with
    | .str value => writePart L builder value
    | .strs value => value.foldl (writePart L) builder) "")

/-! ## Go standard library: `path/filepath` on Unix -/

/-- The path elements between the separators `/`. -/
def splitSep : List Char → List (List Char)
  | [] => [[]]
  | c :: cs =>
    if c = '/' then [] :: splitSep cs
    else
      match splitSep cs with
      | [] => [[c]]
      | e :: es => (c :: e) :: es

/-- The inner loop of the `..` case of `filepath.Clean`:
`for out.w > dotdot && !os.IsPathSeparator(out.index(out.w)) { out.w-- }`. -/
def backtrackTo (buf : List Char) (dotdot : Nat) : Nat → Nat
  | 0 => 0
  | w + 1 => if dotdot < w + 1 ∧ buf.getD (w + 1) '/' ≠ '/' then backtrackTo buf dotdot w else w + 1

/-- One path element of the main loop of `filepath.Clean`; the state is the
output buffer `out[0:w]` and the index `dotdot`. -/
def cleanStep (rooted : Bool) (st : List Char × Nat) (elem : List Char) : List Char × Nat :=
  if elem = [] then st
  else if elem = ['.'] then st
  else if elem = ['.', '.'] then
    if st.2 < st.1.length then
      (st.1.take (backtrackTo st.1 st.2 (st.1.length - 1)), st.2)
    else if rooted then st
    else
      let buf := (if 0 < st.1.length then st.1 ++ ['/'] else st.1) ++ ['.', '.']
      (buf, buf.length)
  else
    ((if (rooted ∧ st.1.length ≠ 1) ∨ (¬ rooted ∧ st.1.length ≠ 0) then st.1 ++ ['/'] else st.1)
      ++ elem, st.2)

/-- Go `filepath.Clean` (Unix: no volume name, separator `/`). -/
def cleanPath (path : String) : String :=
  if path = "" then "."
  else
    let rooted : Bool := path.data.head? = some '/'
    let out := (splitSep path.data).foldl (cleanStep rooted) (if rooted then (['/'], 1) else ([], 0))
    ⟨if out.1 = [] then ['.'] else out.1⟩

/-- Go `filepath.IsAbs` (Unix). -/
def IsAbs (path : String) : Bool :=
  HasPrefix path "/"

/-- Go `filepath.Join` (Unix): the elements from the first non-empty one on,
joined by `/` and cleaned. -/
def joinPath (elem : List String) : String :=
  match elem.dropWhile (fun e => e = "") with
  | [] => ""
  | es => cleanPath (String.intercalate "/" es)

/-! ## The environment of a run -/

/-- A decoded generic JSON value (`interface{}`), kept as an uninterpreted token. -/
abbrev RawJSON := String

/-- A compiled `jsonschema.Schema`: `Validate` returns the diagnostic, if any. -/
structure Schema where
  Validate : RawJSON → Option String

/-- One call of the `filepath.WalkDir` callback. -/
structure WalkCall where
  path : String
  name : String
  isDir : Bool
  err : Option String

/-- The services of the operating system and of the libraries used by `Run`.
Errors are carried as their message. -/
structure World where
  /-- `filepath.Abs` -/
  abs : String → Except String String
  /-- `jsonschema.NewCompiler().Compile` -/
  compile : String → Except String Schema
  /-- `os.Getwd` -/
  getwd : Except String String
  /-- the calls `filepath.WalkDir` makes to a callback that only fails on `err` -/
  walkDir : String → List WalkCall
  /-- `os.ReadFile` -/
  readFile : String → Except String String
  /-- `json.Unmarshal` into `interface{}` -/
  unmarshalAny : String → Except String RawJSON
  /-- `json.Unmarshal` into `ArtifactMetadata` -/
  unmarshalMeta : String → Except String ArtifactMetadata
  /-- `os.Stat`: the error, if any -/
  stat : String → Option String
  /-- `os.Open`: the error, if any -/
  openFile : String → Option String
  /-- `io.Copy` of an opened file: its bytes, or the read error -/
  readAll : String → Except String String
  /-- hex encoding of the SHA-256 digest -/
  sha256Hex : String → String
  /-- `filepath.Rel` -/
  rel : String → String → Except String String
  /-- `os.MkdirAll`: the error, if any -/
  mkdirAll : String → Option String
  /-- `os.Create` followed by the JSON encoder: the error, if any -/
  writeFile : String → Option String
  /-- `os.Getenv` -/
  getenv : String → String
  /-- `strconv.ParseInt(s, 10, 64)` -/
  parseInt : String → Option Int
  /-- `time.Unix(seconds, 0).UTC().Format(time.RFC3339)` -/
  formatUnix : Int → String
  /-- `time.Now().UTC().Format(time.RFC3339)` -/
  nowRFC3339 : String

/-! ## Helpers of `Run` (`indexer.go`, lines 278-309 and 380-425) -/

def loadSchema (w : World) (path : String) : Except String Schema :=
  match w.abs path with
  | .error err => .error err
  | .ok abs => w.compile ("file://" ++ abs)

/-- The callback of `collectMetadataFiles`, run over the calls of the walk. -/
def collectLoop : List WalkCall → List String → Except String (List String)
  | [], entries => .ok entries
  | c :: cs, entries =>
    match c.err with
    | some err => .error err
    | none =>
      if c.isDir then collectLoop cs entries
      else if HasSuffix c.name ".metadata.json" then collectLoop cs (entries ++ [c.path])
      else collectLoop cs entries

def collectMetadataFiles (w : World) (root : String) : Except String (List String) :=
  match collectLoop (w.walkDir root) [] with
  | .error err => .error err
  | .ok entries => .ok (sortStrings entries)

def hashFile (w : World) (path : String) : Except String String :=
  match w.openFile path with
  | some err => .error err
  | none =>
    match w.readAll path with
    | .error err => .error err
    | .ok bytes => .ok (w.sha256Hex bytes)

def reportTimestamp (w : World) : String :=
  if w.getenv "SOURCE_DATE_EPOCH" ≠ "" then
    match w.parseInt (w.getenv "SOURCE_DATE_EPOCH") with
    | some seconds => w.formatUnix seconds
    | none => w.nowRFC3339
  else w.nowRFC3339

def relativePath (w : World) (root target : String) : String :=
  match w.rel root target with
  | .error _ => target
  | .ok rel => rel

def writeJSON (w : World) (path : String) : Option String :=
  w.writeFile path

/-! ## `Run` (`indexer.go`, lines 100-276) -/

/-- The accumulators of the loop of `Run`. -/
structure RunState where
  warnings : List ValidationMessage
  validationErrors : List ValidationMessage
  artifacts : List IndexArtifact
  manifestFiles : List ManifestFile
  seenIDs : List String
deriving DecidableEq, Repr

/-- The state before the first entry (lines 120-124). -/
def RunState.init : RunState := ⟨[], [], [], [], []⟩

/-- Append one message to `validationErrors`. -/
def RunState.fail (st : RunState) (msg : ValidationMessage) : RunState :=
  { st with validationErrors := st.validationErrors ++ [msg] }

/-- The second half of the loop body (lines 164-219), entered once the
identifier has passed the duplicate check. -/
def acceptEntry (L : Lib) (w : World) (repoRoot : String) (st : RunState) (entry : String)
    (md : ArtifactMetadata) : RunState :=
  let st : RunState := { st with seenIDs := md.ID :: st.seenIDs }
  let tags := normalizeList L md.Tags md.ID entry
  let categories := normalizeList L md.Categories md.ID entry
  let tools := normalizeList L md.ToolsSupported md.ID entry
  let st : RunState := { st with warnings := st.warnings ++ tags.2 ++ categories.2 ++ tools.2 }
  let contentPath := cleanPath md.ContentPath
  if IsAbs contentPath || HasPrefix contentPath ".." then
    st.fail ⟨"content_path must be a relative path within the repo", md.ID, entry⟩
  else
    let contentAbs := joinPath [repoRoot, contentPath]
    match w.stat contentAbs with
    | some err => st.fail ⟨"content_path not found: " ++ err, md.ID, entry⟩
    | none =>
      let searchable := buildSearchableText L
        [.str md.Title, .str md.Description, .strs tags.1, .strs categories.1, .strs tools.1]
      let st : RunState := { st with artifacts := st.artifacts ++ [({
        ID := md.ID
        Slug := md.ID
        Title := md.Title
        Description := md.Description
        Tags := tags.1
        Categories := categories.1
        ToolsSupported := tools.1
        CreatedAt := md.CreatedAt
        UpdatedAt := md.UpdatedAt
        SchemaVersion := md.SchemaVersion
        ContentPath := md.ContentPath
        License := md.License
        SafetyNotes := md.SafetyNotes
        SearchableText := searchable } : IndexArtifact)] }
      match hashFile w entry with
      | .error err => st.fail ⟨"failed to hash metadata file: " ++ err, md.ID, entry⟩
      | .ok metaHash =>
        match hashFile w contentAbs with
        | .error err => st.fail ⟨"failed to hash content file: " ++ err, md.ID, entry⟩
        | .ok contentHash =>
          { st with manifestFiles := st.manifestFiles ++
              [ManifestFile.mk (relativePath w repoRoot entry) metaHash,
               ManifestFile.mk (relativePath w repoRoot contentAbs) contentHash] }

/-- The checks of the loop body that decode one file (lines 127-148): the
decoded metadata, or the error message of the first failing check. -/
def decodeEntry (w : World) (metadataSchema : Schema) (entry : String) :
    Except String ArtifactMetadata :=
  match w.readFile entry with
  | .error readErr => .error ("failed to read metadata: " ++ readErr)
  | .ok rawBytes =>
    match w.unmarshalAny rawBytes with
    | .error err => .error ("invalid JSON: " ++ err)
    | .ok rawData =>
      match metadataSchema.Validate rawData with
      | some err => .error ("schema validation failed: " ++ err)
      | none =>
        match w.unmarshalMeta rawBytes with
        | .error err => .error ("failed to parse metadata: " ++ err)
        | .ok md => .ok md

/-- The body of the loop of `Run` (lines 126-220). -/
def processEntry (L : Lib) (w : World) (metadataSchema : Schema) (repoRoot : String)
    (st : RunState) (entry : String) : RunState :=
  match decodeEntry w metadataSchema entry with
  | .error msg => st.fail ⟨msg, "", entry⟩
  | .ok md =>
    if md.SchemaVersion ≠ metadataSchemaVersion then
      st.fail ⟨"unsupported metadata schema_version " ++ L.quote md.SchemaVersion, md.ID, entry⟩
    else if ¬ isValidID md.ID then
      st.fail ⟨"id must be lowercase kebab-case, numbers, or underscores", md.ID, entry⟩
    else if md.ID ∈ st.seenIDs then
      st.fail ⟨"duplicate id detected", md.ID, entry⟩
    else acceptEntry L w repoRoot st entry md

/-- The loop of `Run` over the discovered entries. -/
def runLoop (L : Lib) (w : World) (metadataSchema : Schema) (repoRoot : String)
    (entries : List String) : RunState :=
  entries.foldl (processEntry L w metadataSchema repoRoot) RunState.init

/-- What a call of `Run` leaves behind: the documents written to the three
output files (`none` when the file was not written) and the returned error. -/
structure RunResult where
  index : Option IndexOutput
  report : Option ValidationReport
  manifest : Option Manifest
  err : Option String
deriving DecidableEq, Repr

/-- A run that returns `msg` before writing anything. -/
def RunResult.abort (msg : String) : RunResult := ⟨none, none, none, some msg⟩

def outputPaths : OutputPaths :=
  ⟨"keys-index.json", "validation_report.json", "artifacts_manifest.json"⟩

/-- Lines 222-275 of `Run`: sort, assemble and write the documents. -/
def writeOutputs (w : World) (config : Config) (st : RunState) : RunResult :=
  let artifacts := sortSliceBy IndexArtifact.ID st.artifacts
  let manifestFiles := sortSliceBy ManifestFile.Path st.manifestFiles
  let indexOutput : IndexOutput := {
    SchemaVersion := indexSchemaVersion
    ToolVersion := toolVersion
    ArtifactCount := artifacts.length
    Warnings := st.warnings
    Errors := st.validationErrors
    OutputPaths := outputPaths
    Manifest := ⟨manifestFiles⟩
    Artifacts := artifacts }
  let report : ValidationReport := {
    SchemaVersion := indexSchemaVersion
    ToolVersion := toolVersion
    GeneratedAt := reportTimestamp w
    Warnings := st.warnings
    Errors := st.validationErrors }
  match w.mkdirAll config.OutputDir with
  | some err => RunResult.abort ("create output dir: " ++ err)
  | none =>
    match writeJSON w (joinPath [config.OutputDir, outputPaths.IndexJSON]) with
    | some err => ⟨none, none, none, some ("write index: " ++ err)⟩
    | none =>
      match writeJSON w (joinPath [config.OutputDir, outputPaths.ValidationReport]) with
      | some err => ⟨some indexOutput, none, none, some ("write validation report: " ++ err)⟩
      | none =>
        match writeJSON w (joinPath [config.OutputDir, outputPaths.ArtifactsManifest]) with
        | some err => ⟨some indexOutput, some report, none, some ("write manifest: " ++ err)⟩
        | none =>
          if config.Strict ∧ 0 < st.validationErrors.length then
            ⟨some indexOutput, some report, some ⟨manifestFiles⟩,
              some ("validation failed with " ++ toString st.validationErrors.length ++
                " error(s)")⟩
          else ⟨some indexOutput, some report, some ⟨manifestFiles⟩, none⟩

def Run (L : Lib) (w : World) (config : Config) : RunResult :=
  if config.ArtifactsDir = "" ∨ config.OutputDir = "" ∨ config.SchemaDir = "" then
    RunResult.abort "artifacts-dir, output-dir, and schema-dir must be set"
  else
    match loadSchema w (joinPath [config.SchemaDir, "artifact_metadata.schema.json"]) with
    | .error err => RunResult.abort ("load metadata schema: " ++ err)
    | .ok metadataSchema =>
      match w.getwd with
      | .error err => RunResult.abort ("resolve repo root: " ++ err)
      | .ok repoRoot =>
        match collectMetadataFiles w config.ArtifactsDir with
        | .error err => RunResult.abort ("scan artifacts: " ++ err)
        | .ok entries => writeOutputs w config (runLoop L w metadataSchema repoRoot entries)

/-! ## Notions used to state the properties -/

/-- Go `unicode.IsUpper`: the Latin-1 range is decided inline (the letters
`A`-`Z`, U+00C0-U+00D6 and U+00D8-U+00DE); `upperTable` is the range table
`unicode.Upper` beyond Latin-1, which is not part of the repository. -/
def unicodeIsUpper (upperTable : Char → Bool) (r : Char) : Bool :=
  if r.toNat ≤ 0xFF then
    (0x41 ≤ r.toNat && r.toNat ≤ 0x5A) || (0xC0 ≤ r.toNat && r.toNat ≤ 0xD6) ||
      (0xD8 ≤ r.toNat && r.toNat ≤ 0xDE)
  else upperTable r

/-- Two entries of `unicode.Upper` that have no lower-case mapping in
`unicode.CaseRanges`: U+2102 (double-struck capital C) and U+1D400
(mathematical bold capital A).  The identity case table of `demoLib` agrees
with `unicode.ToLower` on both. -/
def capitalsWithoutLower (r : Char) : Bool :=
  r.toNat == 0x2102 || r.toNat == 0x1D400

/-- The file `entry` passes the read, parse, schema, decode, schema_version and
identifier-grammar checks (lines 127-158) and decodes to `md`. -/
def reachesDuplicateCheck (w : World) (sc : Schema) (entry : String) (md : ArtifactMetadata) :
    Prop :=
  decodeEntry w sc entry = .ok md ∧ md.SchemaVersion = metadataSchemaVersion ∧
    isValidID md.ID = true

/-- The warnings that lines 166-171 record for the metadata `md` of `entry`. -/
def warningsOf (L : Lib) (md : ArtifactMetadata) (entry : String) : List ValidationMessage :=
  (normalizeList L md.Tags md.ID entry).2 ++ (normalizeList L md.Categories md.ID entry).2 ++
    (normalizeList L md.ToolsSupported md.ID entry).2

/-- The condition of line 174 on the metadata `md`. -/
def unsafeContentPath (md : ArtifactMetadata) : Bool :=
  IsAbs (cleanPath md.ContentPath) || HasPrefix (cleanPath md.ContentPath) ".."

/-- The artifact record that lines 185-202 build from the metadata `md` of `entry`. -/
def indexArtifactOf (L : Lib) (md : ArtifactMetadata) (entry : String) : IndexArtifact :=
  { ID := md.ID
    Slug := md.ID
    Title := md.Title
    Description := md.Description
    Tags := (normalizeList L md.Tags md.ID entry).1
    Categories := (normalizeList L md.Categories md.ID entry).1
    ToolsSupported := (normalizeList L md.ToolsSupported md.ID entry).1
    CreatedAt := md.CreatedAt
    UpdatedAt := md.UpdatedAt
    SchemaVersion := md.SchemaVersion
    ContentPath := md.ContentPath
    License := md.License
    SafetyNotes := md.SafetyNotes
    SearchableText := buildSearchableText L
      [.str md.Title, .str md.Description, .strs (normalizeList L md.Tags md.ID entry).1,
        .strs (normalizeList L md.Categories md.ID entry).1,
        .strs (normalizeList L md.ToolsSupported md.ID entry).1] }

/-- The artifact carries the identifier `x`. -/
def hasID (x : String) (a : IndexArtifact) : Bool :=
  decide (a.ID = x)

/-- The message is the duplicate-identifier error of line 161 for the identifier `x`. -/
def isDuplicateError (x : String) (m : ValidationMessage) : Bool :=
  decide (m.Message = "duplicate id detected") && decide (m.ArtifactID = x)

/-! ## Concrete inputs -/

/-- A library instance: `%q` wraps in double quotes (what `strconv.Quote` does
for printable text without quotes or backslashes), the case table is the identity. -/
def demoLib : Lib :=
  ⟨fun s => "\"" ++ s ++ "\"", fun c => c⟩

/-- Metadata with the given identifier, content path and tags. -/
def demoMeta (id contentPath : String) (tags : List String) : ArtifactMetadata :=
  { ID := id, Title := "T", Description := "D", Tags := tags, Categories := [],
    ToolsSupported := [], CreatedAt := none, UpdatedAt := none, SchemaVersion := "1.0.0",
    ContentPath := contentPath, License := none, SafetyNotes := none }

/-- The schema that accepts every document. -/
def demoSchema : Schema :=
  ⟨fun _ => none⟩

/-- A world with working directory `/repo`: the walk finds the metadata files
`files` (in this order), each decoding to the given metadata; the paths in
`present` exist; those in `directories` are directories, which can be opened
but not read; only a path below the root can be made relative to it. -/
def demoWorld (files : List (String × ArtifactMetadata)) (present directories : List String) :
    World where
  abs p := .ok ("/repo/" ++ p)
  compile _ := .ok demoSchema
  getwd := .ok "/repo"
  walkDir _ := files.map (fun f => ⟨f.1, f.1, false, none⟩)
  readFile p := if files.any (fun f => f.1 = p) then .ok p else .error "no such file or directory"
  unmarshalAny b := .ok b
  unmarshalMeta b :=
    match files.find? (fun f => f.1 = b) with
    | some f => .ok f.2
    | none => .error "unexpected end of JSON input"
  stat p := if p ∈ present then none else some "no such file or directory"
  openFile _ := none
  readAll p := if p ∈ directories then .error "is a directory" else .ok p
  sha256Hex b := "sha256:" ++ b
  rel root target :=
    if (root.data ++ ['/']).isPrefixOf target.data then
      .ok ⟨target.data.drop (root.data.length + 1)⟩
    else .error ("Rel: can't make " ++ target ++ " relative to " ++ root)
  mkdirAll _ := none
  writeFile _ := none
  getenv _ := "0"
  parseInt _ := some 0
  formatUnix _ := "1970-01-01T00:00:00Z"
  nowRFC3339 := "2024-01-01T00:00:00Z"

def demoConfig : Config :=
  ⟨"docs", "out", "schemas", false⟩

/-- The artifact record built from `demoMeta id contentPath []`. -/
def demoArtifact (id contentPath : String) : IndexArtifact :=
  { ID := id, Slug := id, Title := "T", Description := "D", Tags := [], Categories := [],
    ToolsSupported := [], CreatedAt := none, UpdatedAt := none, SchemaVersion := "1.0.0",
    ContentPath := contentPath, License := none, SafetyNotes := none, SearchableText := "t d" }

/-- The index document of a run without warnings. -/
def demoIndex (errors : List ValidationMessage) (files : List ManifestFile)
    (artifacts : List IndexArtifact) : IndexOutput :=
  { SchemaVersion := "1.0.0", ToolVersion := "0.1.0", ArtifactCount := artifacts.length,
    Warnings := [], Errors := errors, OutputPaths := outputPaths, Manifest := ⟨files⟩,
    Artifacts := artifacts }

/-- Two valid artifacts `b` and `a`, found by the walk in this order. -/
def twoFilesWorld : World :=
  demoWorld
    [("docs/b.metadata.json", demoMeta "b" "content/b.md" []),
     ("docs/a.metadata.json", demoMeta "a" "content/a.md" [])]
    ["/repo/content/a.md", "/repo/content/b.md"] []

/-- The index written for `twoFilesWorld`. -/
def twoFilesIndex : IndexOutput :=
  demoIndex []
    [⟨"content/a.md", "sha256:/repo/content/a.md"⟩, ⟨"content/b.md", "sha256:/repo/content/b.md"⟩,
     ⟨"docs/a.metadata.json", "sha256:docs/a.metadata.json"⟩,
     ⟨"docs/b.metadata.json", "sha256:docs/b.metadata.json"⟩]
    [demoArtifact "a" "content/a.md", demoArtifact "b" "content/b.md"]

/-- Two valid files with the identifier `dup`; both content files exist. -/
def duplicateWorld : World :=
  demoWorld
    [("docs/a.metadata.json", demoMeta "dup" "content/a.md" []),
     ("docs/b.metadata.json", demoMeta "dup" "content/b.md" [])]
    ["/repo/content/a.md", "/repo/content/b.md"] []

/-- The index written for `duplicateWorld`. -/
def duplicateIndex : IndexOutput :=
  demoIndex [⟨"duplicate id detected", "dup", "docs/b.metadata.json"⟩]
    [⟨"content/a.md", "sha256:/repo/content/a.md"⟩,
     ⟨"docs/a.metadata.json", "sha256:docs/a.metadata.json"⟩]
    [demoArtifact "dup" "content/a.md"]

/-- Two files with the identifier `dup`; the content path of the first one
leaves the repository. -/
def duplicateEscapeWorld : World :=
  demoWorld
    [("docs/a.metadata.json", demoMeta "dup" "../a.md" []),
     ("docs/b.metadata.json", demoMeta "dup" "content/b.md" [])]
    ["/repo/content/b.md"] []

/-- The index written for `duplicateEscapeWorld`. -/
def duplicateEscapeIndex : IndexOutput :=
  demoIndex
    [⟨"content_path must be a relative path within the repo", "dup", "docs/a.metadata.json"⟩,
     ⟨"duplicate id detected", "dup", "docs/b.metadata.json"⟩] [] []

/-- One file whose content path is `../secret.txt`. -/
def escapeWorld : World :=
  demoWorld [("docs/a.metadata.json", demoMeta "a" "../secret.txt" [])] ["/secret.txt"] []

/-- The index written for `escapeWorld`. -/
def escapeIndex : IndexOutput :=
  demoIndex
    [⟨"content_path must be a relative path within the repo", "a", "docs/a.metadata.json"⟩] [] []

/-- One file whose content lies in the existing directory `..drafts` of the
repository. -/
def dotdotNameWorld : World :=
  demoWorld [("docs/a.metadata.json", demoMeta "a" "..drafts/a.md" [])]
    ["/repo/..drafts/a.md"] []

/-- One file whose content path `content` exists and is a directory, so that
reading it for the digest fails. -/
def directoryWorld : World :=
  demoWorld [("docs/a.metadata.json", demoMeta "a" "content" [])]
    ["/repo/content"] ["/repo/content"]

/-- The message is a `duplicate value ... removed` warning of line 325. -/
def isDuplicateWarning (m : ValidationMessage) : Bool :=
  HasPrefix m.Message "duplicate value "

/-- The message is a `normalized value ... to ...` warning of line 322. -/
def isNormalizedWarning (m : ValidationMessage) : Bool :=
  HasPrefix m.Message "normalized value "

/-- Neither the first nor the last element of the list satisfies `p`. -/
def EndsClean {α : Type} (p : α → Bool) (l : List α) : Prop :=
  (∀ c ∈ l.head?, p c = false) ∧ (∀ c ∈ l.getLast?, p c = false)

/-- The artifact `a` was built from a file that passed every check up to the
existence of its content. -/
def BuiltFromAccepted (L : Lib) (w : World) (sc : Schema) (root : String) (a : IndexArtifact) :
    Prop :=
  ∃ e md, reachesDuplicateCheck w sc e md ∧ unsafeContentPath md = false ∧
    w.stat (joinPath [root, cleanPath md.ContentPath]) = none ∧ a = indexArtifactOf L md e

/-- The strings of one argument of `buildSearchableText`. -/
def Part.values : Part → List String
  | .str value => [value]
  | .strs value => value

/-- The example of the specification: one file with the tags
`["API", "api", " Keys "]` whose content exists. -/
def taggedWorld : World :=
  demoWorld
    [("docs/api-keys.metadata.json", demoMeta "api-keys" "content/api-keys.md"
      ["API", "api", " Keys "])]
    ["/repo/content/api-keys.md"] []

/-- The artifact accepted in `taggedWorld`. -/
def taggedArtifact : IndexArtifact :=
  { ID := "api-keys", Slug := "api-keys", Title := "T", Description := "D",
    Tags := ["api", "keys"], Categories := [], ToolsSupported := [], CreatedAt := none,
    UpdatedAt := none, SchemaVersion := "1.0.0", ContentPath := "content/api-keys.md",
    License := none, SafetyNotes := none, SearchableText := "t d api keys" }

/-- The index written for `taggedWorld`. -/
def taggedIndex : IndexOutput :=
  { SchemaVersion := "1.0.0", ToolVersion := "0.1.0", ArtifactCount := 1,
    Warnings :=
      [⟨"normalized value \"API\" to \"api\"", "api-keys", "docs/api-keys.metadata.json"⟩,
       ⟨"duplicate value \"api\" removed", "api-keys", "docs/api-keys.metadata.json"⟩,
       ⟨"normalized value \"Keys\" to \"keys\"", "api-keys", "docs/api-keys.metadata.json"⟩],
    Errors := [], OutputPaths := outputPaths,
    Manifest := ⟨[⟨"content/api-keys.md", "sha256:/repo/content/api-keys.md"⟩,
      ⟨"docs/api-keys.metadata.json", "sha256:docs/api-keys.metadata.json"⟩]⟩,
    Artifacts := [taggedArtifact] }

/-- The metadata a file decodes to, when it can be read and decoded. -/
def decodedMeta (w : World) (entry : String) : Option ArtifactMetadata :=
  match w.readFile entry with
  | .error _ => none
  | .ok rawBytes =>
    match w.unmarshalMeta rawBytes with
    | .error _ => none
    | .ok md => some md

/-- The checks of section 4.3 of the specification, in its order: read, parse,
schema, decode, schema_version, identifier grammar, duplicate identifier,
content-path safety, content existence, hashing (the metadata file, then the
content file).  Each check is taken on its own, on the data it needs: its
entry is the error it reports when it fails, and `none` when it passes or
cannot be evaluated. -/
def checksInOrder (L : Lib) (w : World) (sc : Schema) (root : String) (seen : List String)
    (entry : String) : List (Option ValidationMessage) :=
  [ (match w.readFile entry with
     | .error err => some ⟨"failed to read metadata: " ++ err, "", entry⟩
     | .ok _ => none),
    (match w.readFile entry with
     | .error _ => none
     | .ok rawBytes =>
       match w.unmarshalAny rawBytes with
       | .error err => some ⟨"invalid JSON: " ++ err, "", entry⟩
       | .ok _ => none),
    (match w.readFile entry with
     | .error _ => none
     | .ok rawBytes =>
       match w.unmarshalAny rawBytes with
       | .error _ => none
       | .ok rawData =>
         match sc.Validate rawData with
         | some err => some ⟨"schema validation failed: " ++ err, "", entry⟩
         | none => none),
    (match w.readFile entry with
     | .error _ => none
     | .ok rawBytes =>
       match w.unmarshalMeta rawBytes with
       | .error err => some ⟨"failed to parse metadata: " ++ err, "", entry⟩
       | .ok _ => none),
    (decodedMeta w entry).bind (fun md =>
      if md.SchemaVersion ≠ metadataSchemaVersion then
        some ⟨"unsupported metadata schema_version " ++ L.quote md.SchemaVersion, md.ID, entry⟩
      else none),
    (decodedMeta w entry).bind (fun md =>
      if isValidID md.ID = false then
        some ⟨"id must be lowercase kebab-case, numbers, or underscores", md.ID, entry⟩
      else none),
    (decodedMeta w entry).bind (fun md =>
      if md.ID ∈ seen then some ⟨"duplicate id detected", md.ID, entry⟩ else none),
    (decodedMeta w entry).bind (fun md =>
      if unsafeContentPath md = true then
        some ⟨"content_path must be a relative path within the repo", md.ID, entry⟩
      else none),
    (decodedMeta w entry).bind (fun md =>
      match w.stat (joinPath [root, cleanPath md.ContentPath]) with
      | some err => some ⟨"content_path not found: " ++ err, md.ID, entry⟩
      | none => none),
    (decodedMeta w entry).bind (fun md =>
      match hashFile w entry with
      | .error err => some ⟨"failed to hash metadata file: " ++ err, md.ID, entry⟩
      | .ok _ => none),
    (decodedMeta w entry).bind (fun md =>
      match hashFile w (joinPath [root, cleanPath md.ContentPath]) with
      | .error err => some ⟨"failed to hash content file: " ++ err, md.ID, entry⟩
      | .ok _ => none) ]

/-- The error of the earliest failing check, if any check fails. -/
def earliestFailure (L : Lib) (w : World) (sc : Schema) (root : String) (seen : List String)
    (entry : String) : Option ValidationMessage :=
  (checksInOrder L w sc root seen entry).findSome? id

/-- The configuration of `demoConfig` in strict mode. -/
def strictConfig : Config :=
  ⟨"docs", "out", "schemas", true⟩

/-- A directory that holds no metadata file, only a text file. -/
def noMetadataWorld : World :=
  demoWorld [("docs/readme.md", demoMeta "readme" "content/readme.md" [])] [] []

/-- The world `twoFilesWorld` at another time, with the walk in the other order. -/
def twoFilesWorldLater : World :=
  { twoFilesWorld with
    walkDir := fun _ =>
      [⟨"docs/a.metadata.json", "docs/a.metadata.json", false, none⟩,
       ⟨"docs/b.metadata.json", "docs/b.metadata.json", false, none⟩]
    nowRFC3339 := "2025-06-30T12:00:00Z" }

/-- The world `taggedWorld` with the tags of its file removed. -/
def untaggedWorld : World :=
  demoWorld [("docs/api-keys.metadata.json", demoMeta "api-keys" "content/api-keys.md" [])]
    ["/repo/content/api-keys.md"] []

/-- The index written for `untaggedWorld`. -/
def untaggedIndex : IndexOutput :=
  demoIndex []
    [⟨"content/api-keys.md", "sha256:/repo/content/api-keys.md"⟩,
     ⟨"docs/api-keys.metadata.json", "sha256:docs/api-keys.metadata.json"⟩]
    [demoArtifact "api-keys" "content/api-keys.md"]

/-- The two records agree on every field but `Tags`, `Categories` and
`ToolsSupported`. -/
def sameExceptLists (a b : ArtifactMetadata) : Prop :=
  b = { a with Tags := b.Tags, Categories := b.Categories, ToolsSupported := b.ToolsSupported }

/-- The two states agree on the errors, the accepted identifiers, the paths of
the manifest and the identifiers seen. -/
def sameAcceptance (s t : RunState) : Prop :=
  s.validationErrors = t.validationErrors ∧
    s.artifacts.map IndexArtifact.ID = t.artifacts.map IndexArtifact.ID ∧
    s.manifestFiles.map ManifestFile.Path = t.manifestFiles.map ManifestFile.Path ∧
    s.seenIDs = t.seenIDs

/-- The two worlds differ at most in the list fields of the file `e`, and in
nothing else that the loop observes. -/
def sameUpToLists (w1 w2 : World) (sc : Schema) (e : String) : Prop :=
  decodeEntry w1 sc e = decodeEntry w2 sc e ∨
    ∃ md1 md2, decodeEntry w1 sc e = .ok md1 ∧ decodeEntry w2 sc e = .ok md2 ∧
      sameExceptLists md1 md2

/-- Hashing a file succeeds in both worlds or fails with the same error. -/
def sameHashOutcome (w1 w2 : World) (p : String) : Prop :=
  (∃ h1 h2, hashFile w1 p = .ok h1 ∧ hashFile w2 p = .ok h2) ∨
    ∃ err, hashFile w1 p = .error err ∧ hashFile w2 p = .error err

end KeysIndexer

/-! # Properties -/

namespace KeysIndexer

/-! ## Ordering and sorting -/

theorem strLE_iff_le (a b : String) : strLE a b ↔ a ≤ b := by
  rw [← not_lt, String.lt_iff_toList_lt]
  exact Iff.rfl

theorem strLE_total (a b : String) : strLE a b ∨ strLE b a := by
  simp only [strLE_iff_le]
  exact le_total a b

theorem strLE_trans {a b c : String} (h1 : strLE a b) (h2 : strLE b c) : strLE a c := by
  simp only [strLE_iff_le] at *
  exact le_trans h1 h2

theorem sortSliceBy_perm {α : Type} (key : α → String) (l : List α) :
    (sortSliceBy key l).Perm l :=
  List.perm_insertionSort _ l

theorem sortSliceBy_sorted {α : Type} (key : α → String) (l : List α) :
    (sortSliceBy key l).Sorted (fun a b => key a ≤ key b) := by
  have h := @List.sorted_insertionSort α (fun a b => strLE (key a) (key b)) _
    ⟨fun a b => strLE_total (key a) (key b)⟩ ⟨fun _ _ _ h1 h2 => strLE_trans h1 h2⟩ l
  exact List.Pairwise.imp (fun {a b} h => (strLE_iff_le _ _).1 h) h

theorem sortStrings_perm (l : List String) : (sortStrings l).Perm l :=
  List.perm_insertionSort _ l

theorem sortStrings_sorted (l : List String) : (sortStrings l).Sorted (· ≤ ·) := by
  have h := @List.sorted_insertionSort String strLE _ ⟨strLE_total⟩
    ⟨fun _ _ _ h1 h2 => strLE_trans h1 h2⟩ l
  exact List.Pairwise.imp (fun {a b} h => (strLE_iff_le _ _).1 h) h

/-! ## `isValidID` -/

theorem isValidIDLoop_cons (r : Char) (rest : List Char) (i : Nat) :
    isValidIDLoop i (r :: rest) = (isIDChar r && isValidIDLoop (i + r.utf8Size) rest) := by
  simp only [isValidIDLoop, isIDChar]
  split_ifs with h1 h2 h3 h4 <;> simp_all
  intro _
  tauto

theorem isValidIDLoop_eq_all (l : List Char) (i : Nat) :
    isValidIDLoop i l = l.all isIDChar := by
  induction l generalizing i with
  | nil => rfl
  | cons r rest ih => rw [isValidIDLoop_cons, ih, List.all_cons]

theorem isIDChar_iff (c : Char) : isIDChar c = true ↔
    (('a' ≤ c ∧ c ≤ 'z') ∨ ('0' ≤ c ∧ c ≤ '9') ∨ c = '-' ∨ c = '_') := by
  simp only [isIDChar, Bool.or_eq_true, Bool.and_eq_true, decide_eq_true_eq, beq_iff_eq,
    Char.le_def, or_assoc]
  rfl

/-- C5: `isValidID id` holds exactly when `id` is non-empty and every character
is in `a-z`, `0-9`, `-` or `_`, whatever its position; `isValidID` equals the
character-class predicate `isIDChar` over the whole string; and the identifier
`My-Artifact`, which has an uppercase letter, is rejected. -/
theorem isValidID_iff_charClass :
    (∀ id : String, isValidID id = true ↔
      (id ≠ "" ∧ ∀ c ∈ id.data,
        ('a' ≤ c ∧ c ≤ 'z') ∨ ('0' ≤ c ∧ c ≤ '9') ∨ c = '-' ∨ c = '_')) ∧
    (∀ id : String, isValidID id = (decide (id ≠ "") && id.data.all isIDChar)) ∧
    isValidID "My-Artifact" = false := by
  refine ⟨fun id => ?_, fun id => ?_, by decide⟩
  · unfold isValidID
    by_cases h : id = ""
    · simp [h]
    · rw [if_neg h, isValidIDLoop_eq_all, List.all_eq_true]
      simp only [isIDChar_iff, ne_eq, h, not_false_eq_true, true_and]
  · unfold isValidID
    by_cases h : id = "" <;> simp [h, isValidIDLoop_eq_all]

/-! ## `normalizeList` -/

/-- C3 (as stated, refuted): on `["API", "api", " Keys "]` the warnings are not
two: there are three, the third one for the normalization of `Keys`. -/
theorem normalizeList_warnings_not_two :
    (normalizeList demoLib ["API", "api", " Keys "] "api-keys" "api-keys.metadata.json").2.length
        ≠ 2 ∧
      (⟨"normalized value \"Keys\" to \"keys\"", "api-keys", "api-keys.metadata.json"⟩ :
        ValidationMessage) ∈
        (normalizeList demoLib ["API", "api", " Keys "] "api-keys" "api-keys.metadata.json").2 := by
  decide

/-- C3 (amended): on `["API", "api", " Keys "]`, `normalizeList` returns
`["api", "keys"]` and exactly three warnings, in this order: the normalization
of `API` to `api`, the removal of the duplicate `api`, and the normalization of
`Keys` to `keys`. -/
theorem normalizeList_api_keys (L : Lib) (artifactID file : String) :
    normalizeList L ["API", "api", " Keys "] artifactID file =
      (["api", "keys"],
        [⟨"normalized value " ++ L.quote "API" ++ " to " ++ L.quote "api", artifactID, file⟩,
         ⟨"duplicate value " ++ L.quote "api" ++ " removed", artifactID, file⟩,
         ⟨"normalized value " ++ L.quote "Keys" ++ " to " ++ L.quote "keys", artifactID, file⟩]) := by
  rfl

/-- The invariant of the loop of `normalizeList`: the kept values are distinct,
they are the values marked as seen, and they are the values kept before plus
the lower-cased trimmed forms of the inputs whose trimmed form is non-empty. -/
theorem normalize_foldl_inv (L : Lib) (a f : String) (values : List String) (st : NormState)
    (hnd : st.normalized.Nodup) (hseen : ∀ x, x ∈ st.seen ↔ x ∈ st.normalized) :
    (values.foldl (normalizeStep L a f) st).normalized.Nodup ∧
      (∀ x, x ∈ (values.foldl (normalizeStep L a f) st).seen ↔
        x ∈ (values.foldl (normalizeStep L a f) st).normalized) ∧
      ∀ x, x ∈ (values.foldl (normalizeStep L a f) st).normalized ↔
        (x ∈ st.normalized ∨ ∃ v ∈ values, TrimSpace v ≠ "" ∧ x = ToLower L (TrimSpace v)) := by
  induction values generalizing st with
  | nil => simp [hnd, hseen]
  | cons v vs ih =>
    simp only [List.foldl_cons]
    by_cases ht : TrimSpace v = ""
    · have hs : normalizeStep L a f st v = st := by simp [normalizeStep, ht]
      rw [hs]
      obtain ⟨h1, h2, h3⟩ := ih st hnd hseen
      refine ⟨h1, h2, fun x => ?_⟩
      rw [h3 x]
      constructor
      · rintro (h | ⟨u, hu, hne, hx⟩)
        · exact Or.inl h
        · exact Or.inr ⟨u, List.mem_cons_of_mem _ hu, hne, hx⟩
      · rintro (h | ⟨u, hu, hne, hx⟩)
        · exact Or.inl h
        · rcases List.mem_cons.1 hu with rfl | hu
          · exact absurd ht hne
          · exact Or.inr ⟨u, hu, hne, hx⟩
    · by_cases hm : ToLower L (TrimSpace v) ∈ st.seen
      · have hn : (normalizeStep L a f st v).normalized = st.normalized := by
          simp [normalizeStep, ht, hm]
        have hsn : (normalizeStep L a f st v).seen = st.seen := by
          simp [normalizeStep, ht, hm]
        obtain ⟨h1, h2, h3⟩ := ih (normalizeStep L a f st v) (hn ▸ hnd)
          (fun x => by rw [hn, hsn]; exact hseen x)
        refine ⟨h1, h2, fun x => ?_⟩
        rw [h3 x, hn]
        constructor
        · rintro (h | ⟨u, hu, hne, hx⟩)
          · exact Or.inl h
          · exact Or.inr ⟨u, List.mem_cons_of_mem _ hu, hne, hx⟩
        · rintro (h | ⟨u, hu, hne, hx⟩)
          · exact Or.inl h
          · rcases List.mem_cons.1 hu with rfl | hu
            · exact Or.inl (hx ▸ (hseen _).1 hm)
            · exact Or.inr ⟨u, hu, hne, hx⟩
      · have hn : (normalizeStep L a f st v).normalized =
            st.normalized ++ [ToLower L (TrimSpace v)] := by
          simp [normalizeStep, ht, hm]
        have hsn : (normalizeStep L a f st v).seen = ToLower L (TrimSpace v) :: st.seen := by
          simp [normalizeStep, ht, hm]
        have hnd' : (normalizeStep L a f st v).normalized.Nodup := by
          rw [hn]
          refine List.Nodup.append hnd (List.nodup_singleton _) ?_
          intro x hx1 hx2
          rw [List.mem_singleton] at hx2
          exact hm ((hseen _).2 (hx2 ▸ hx1))
        obtain ⟨h1, h2, h3⟩ := ih (normalizeStep L a f st v) hnd'
          (fun x => by rw [hn, hsn]; simp [hseen x, or_comm])
        refine ⟨h1, h2, fun x => ?_⟩
        rw [h3 x, hn]
        constructor
        · rintro (h | ⟨u, hu, hne, hx⟩)
          · rcases List.mem_append.1 h with h | h
            · exact Or.inl h
            · exact Or.inr ⟨v, List.mem_cons_self _ _, ht, List.mem_singleton.1 h⟩
          · exact Or.inr ⟨u, List.mem_cons_of_mem _ hu, hne, hx⟩
        · rintro (h | ⟨u, hu, hne, hx⟩)
          · exact Or.inl (List.mem_append_left _ h)
          · rcases List.mem_cons.1 hu with rfl | hu
            · exact Or.inl (List.mem_append_right _ (List.mem_singleton.2 hx))
            · exact Or.inr ⟨u, hu, hne, hx⟩

theorem normalizeList_nodup (L : Lib) (values : List String) (a f : String) :
    (normalizeList L values a f).1.Nodup :=
  (List.Perm.nodup_iff (sortStrings_perm _)).2
    (normalize_foldl_inv L a f values ⟨[], [], []⟩ List.nodup_nil (fun _ => Iff.rfl)).1

theorem mem_normalizeList (L : Lib) (values : List String) (a f x : String) :
    x ∈ (normalizeList L values a f).1 ↔
      ∃ v ∈ values, TrimSpace v ≠ "" ∧ x = ToLower L (TrimSpace v) := by
  show x ∈ sortStrings _ ↔ _
  rw [(sortStrings_perm _).mem_iff,
    (normalize_foldl_inv L a f values ⟨[], [], []⟩ List.nodup_nil (fun _ => Iff.rfl)).2.2 x]
  simp

/-- C8: the list returned by `normalizeList` is strictly ascending (sorted and
free of duplicates), and its elements are exactly the lower-cased trimmed forms
of the input values whose trimmed form is non-empty. -/
theorem normalizeList_sorted_and_elements (L : Lib) (values : List String)
    (artifactID file : String) :
    (normalizeList L values artifactID file).1.Sorted (· < ·) ∧
      (normalizeList L values artifactID file).1.Nodup ∧
      ∀ x, x ∈ (normalizeList L values artifactID file).1 ↔
        ∃ v ∈ values, TrimSpace v ≠ "" ∧ x = ToLower L (TrimSpace v) :=
  ⟨(sortStrings_sorted _).lt_of_le (normalizeList_nodup L values artifactID file),
    normalizeList_nodup L values artifactID file,
    mem_normalizeList L values artifactID file⟩

theorem unicodeToLower_ascii_idem (L : Lib) (c : Char) (h : c.toNat ≤ 0x7F) :
    unicodeToLower L (unicodeToLower L c) = unicodeToLower L c := by
  by_cases hu : 'A'.toNat ≤ c.toNat ∧ c.toNat ≤ 'Z'.toNat
  · have hc : c = Char.ofNat c.toNat := (Char.ofNat_toNat c).symm
    obtain ⟨h1, h2⟩ := hu
    generalize c.toNat = n at hc h1 h2
    subst hc
    have h1' : 65 ≤ n := h1
    have h2' : n ≤ 90 := h2
    interval_cases n <;> rfl
  · have h1 : unicodeToLower L c = c := by
      unfold unicodeToLower
      rw [if_pos h, if_neg hu]
    rw [h1, h1]

theorem demoLib_idem (c : Char) :
    unicodeToLower demoLib (unicodeToLower demoLib c) = unicodeToLower demoLib c := by
  by_cases h : c.toNat ≤ 0x7F
  · exact unicodeToLower_ascii_idem demoLib c h
  · have h1 : unicodeToLower demoLib c = c := by
      unfold unicodeToLower
      rw [if_neg h]
      rfl
    rw [h1, h1]

/-- The letters `A`-`Z` are upper case, and `unicode.ToLower` changes them. -/
theorem ascii_capital (L : Lib) (upperTable : Char → Bool) (c : Char) (h1 : 'A' ≤ c)
    (h2 : c ≤ 'Z') : unicodeIsUpper upperTable c = true ∧ unicodeToLower L c ≠ c := by
  have hc : c = Char.ofNat c.toNat := (Char.ofNat_toNat c).symm
  have h1' : 65 ≤ c.toNat := h1
  have h2' : c.toNat ≤ 90 := h2
  generalize c.toNat = n at hc h1' h2'
  subst hc
  have key : unicodeIsUpper upperTable (Char.ofNat n) = true ∧
      (unicodeToLower L (Char.ofNat n) != Char.ofNat n) = true := by
    interval_cases n <;> exact ⟨rfl, rfl⟩
  exact ⟨key.1, by simpa using key.2⟩

/-- Lower-casing an ASCII rune never gives an upper-case rune. -/
theorem unicodeIsUpper_lower_ascii (L : Lib) (upperTable : Char → Bool) (c : Char)
    (h : c.toNat ≤ 0x7F) : unicodeIsUpper upperTable (unicodeToLower L c) = false := by
  by_cases hu : 'A'.toNat ≤ c.toNat ∧ c.toNat ≤ 'Z'.toNat
  · have hc : c = Char.ofNat c.toNat := (Char.ofNat_toNat c).symm
    obtain ⟨h1, h2⟩ := hu
    generalize c.toNat = n at hc h1 h2
    subst hc
    have h1' : 65 ≤ n := h1
    have h2' : n ≤ 90 := h2
    interval_cases n <;> rfl
  · have h1 : unicodeToLower L c = c := by
      unfold unicodeToLower
      rw [if_pos h, if_neg hu]
    rw [h1]
    unfold unicodeIsUpper
    have hu' : ¬ (65 ≤ c.toNat ∧ c.toNat ≤ 90) := hu
    rw [if_pos (by omega)]
    simp only [Bool.or_eq_false_iff, Bool.and_eq_false_iff, decide_eq_false_iff_not]
    refine ⟨⟨?_, ?_⟩, ?_⟩ <;> omega

theorem map_ne_self_of_mem {α : Type} (g : α → α) (l : List α) (c : α) (hc : c ∈ l)
    (hg : g c ≠ c) : l.map g ≠ l := by
  induction l with
  | nil => cases hc
  | cons x xs ih =>
    intro h
    rw [List.map_cons, List.cons.injEq] at h
    rcases List.mem_cons.1 hc with rfl | hc
    · exact hg h.1
    · exact ih hc h.2

theorem normalizeStep_warnings_mono (L : Lib) (a f : String) (st : NormState) (v : String)
    (m : ValidationMessage) (hm : m ∈ st.warnings) :
    m ∈ (normalizeStep L a f st v).warnings := by
  unfold normalizeStep
  simp only
  split_ifs <;> simp [hm]

theorem normalize_foldl_warnings_mono (L : Lib) (a f : String) (values : List String)
    (st : NormState) (m : ValidationMessage) (hm : m ∈ st.warnings) :
    m ∈ (values.foldl (normalizeStep L a f) st).warnings := by
  induction values generalizing st with
  | nil => exact hm
  | cons v vs ih => exact ih _ (normalizeStep_warnings_mono L a f st v m hm)

theorem normalizeStep_warns (L : Lib) (a f : String) (st : NormState) (v : String)
    (ht : TrimSpace v ≠ "") (hl : ToLower L (TrimSpace v) ≠ TrimSpace v) :
    (⟨"normalized value " ++ L.quote (TrimSpace v) ++ " to " ++ L.quote (ToLower L (TrimSpace v)),
      a, f⟩ : ValidationMessage) ∈ (normalizeStep L a f st v).warnings := by
  unfold normalizeStep
  simp only [if_neg ht, if_pos hl]
  split_ifs <;> simp

theorem normalize_foldl_warns (L : Lib) (a f : String) (values : List String) (st : NormState)
    (v : String) (hv : v ∈ values) (ht : TrimSpace v ≠ "")
    (hl : ToLower L (TrimSpace v) ≠ TrimSpace v) :
    (⟨"normalized value " ++ L.quote (TrimSpace v) ++ " to " ++ L.quote (ToLower L (TrimSpace v)),
      a, f⟩ : ValidationMessage) ∈ (values.foldl (normalizeStep L a f) st).warnings := by
  induction values generalizing st with
  | nil => cases hv
  | cons u us ih =>
    rcases List.mem_cons.1 hv with rfl | hv
    · exact normalize_foldl_warnings_mono L a f us _ _ (normalizeStep_warns L a f st v ht hl)
    · exact ih _ hv

/-- C9 (as stated, refuted): the tag `ℂ` (U+2102) is an upper-case letter that
`unicode.ToLower` leaves unchanged; `normalizeList` keeps it in the result,
which then contains an upper-case character, and records no warning. -/
theorem normalizeList_capital_without_lower :
    unicodeIsUpper capitalsWithoutLower 'ℂ' = true ∧ unicodeToLower demoLib 'ℂ' = 'ℂ' ∧
      TrimSpace "ℂ" = "ℂ" ∧ normalizeList demoLib ["ℂ"] "k" "f" = (["ℂ"], []) := by
  decide

/-- C9 (amended): for an input value `v` whose trimmed form contains a rune that
`unicode.ToLower` changes, the result of `normalizeList` contains the
lower-cased trimmed form of `v` and the warnings contain the message
`normalized value <trimmed> to <lower>`; every element of the result is the
lower-cased form of a trimmed input value and, when that value is ASCII,
contains no upper-case rune; and every letter `A`-`Z` is an upper-case rune
that `unicode.ToLower` changes. -/
theorem normalizeList_lowercases_and_warns (L : Lib) (upperTable : Char → Bool)
    (values : List String) (artifactID file v : String) (hv : v ∈ values)
    (hup : ∃ c ∈ (TrimSpace v).data, unicodeToLower L c ≠ c) :
    ToLower L (TrimSpace v) ∈ (normalizeList L values artifactID file).1 ∧
      (⟨"normalized value " ++ L.quote (TrimSpace v) ++ " to " ++
          L.quote (ToLower L (TrimSpace v)), artifactID, file⟩ : ValidationMessage) ∈
        (normalizeList L values artifactID file).2 ∧
      (∀ x ∈ (normalizeList L values artifactID file).1, ∃ u ∈ values,
        x = ToLower L (TrimSpace u) ∧
          ((∀ c ∈ (TrimSpace u).data, c.toNat ≤ 0x7F) →
            ∀ d ∈ x.data, unicodeIsUpper upperTable d = false)) ∧
      ∀ c, 'A' ≤ c → c ≤ 'Z' → unicodeIsUpper upperTable c = true ∧ unicodeToLower L c ≠ c := by
  obtain ⟨c, hc, hupc⟩ := hup
  have ht : TrimSpace v ≠ "" := by
    intro h
    rw [h] at hc
    cases hc
  have hl : ToLower L (TrimSpace v) ≠ TrimSpace v := by
    intro h
    have hd : (TrimSpace v).data.map (unicodeToLower L) = (TrimSpace v).data :=
      congrArg String.data h
    exact map_ne_self_of_mem _ _ c hc hupc hd
  refine ⟨(mem_normalizeList L values artifactID file _).2 ⟨v, hv, ht, rfl⟩,
    normalize_foldl_warns L artifactID file values _ v hv ht hl, ?_,
    fun c h1 h2 => ascii_capital L upperTable c h1 h2⟩
  intro x hx
  obtain ⟨u, hu, _, rfl⟩ := (mem_normalizeList L values artifactID file x).1 hx
  refine ⟨u, hu, rfl, fun hascii d hd => ?_⟩
  obtain ⟨d', hd', rfl⟩ := List.mem_map.1 hd
  exact unicodeIsUpper_lower_ascii L upperTable d' (hascii d' hd')

/-- C9 (amended) at the tags `["API", " Keys "]`, for the value `" Keys "`. -/
theorem normalizeList_lowercases_and_warns_witness :
    ToLower demoLib (TrimSpace " Keys ") ∈ (normalizeList demoLib ["API", " Keys "] "k" "f").1 ∧
      (⟨"normalized value " ++ demoLib.quote (TrimSpace " Keys ") ++ " to " ++
          demoLib.quote (ToLower demoLib (TrimSpace " Keys ")), "k", "f"⟩ : ValidationMessage) ∈
        (normalizeList demoLib ["API", " Keys "] "k" "f").2 ∧
      (∀ x ∈ (normalizeList demoLib ["API", " Keys "] "k" "f").1, ∃ u ∈ ["API", " Keys "],
        x = ToLower demoLib (TrimSpace u) ∧
          ((∀ c ∈ (TrimSpace u).data, c.toNat ≤ 0x7F) →
            ∀ d ∈ x.data, unicodeIsUpper capitalsWithoutLower d = false)) ∧
      ∀ c, 'A' ≤ c → c ≤ 'Z' →
        unicodeIsUpper capitalsWithoutLower c = true ∧ unicodeToLower demoLib c ≠ c :=
  normalizeList_lowercases_and_warns demoLib capitalsWithoutLower ["API", " Keys "] "k" "f"
    " Keys " (by decide) ⟨'K', by decide, by decide⟩

/-! ## `filepath.Clean` keeps absolute paths absolute -/

theorem backtrackTo_ge (buf : List Char) (dotdot w : Nat) (h : dotdot ≤ w) :
    dotdot ≤ backtrackTo buf dotdot w := by
  induction w with
  | zero => simpa [backtrackTo] using h
  | succ n ih =>
    unfold backtrackTo
    split_ifs with hc
    · exact ih (by omega)
    · exact h

theorem cleanStep_rooted (cs : List Char) (elem : List Char) :
    ∃ cs', cleanStep true ('/' :: cs, 1) elem = ('/' :: cs', 1) := by
  unfold cleanStep
  by_cases h1 : elem = []
  · exact ⟨cs, by rw [if_pos h1]⟩
  · rw [if_neg h1]
    by_cases h2 : elem = ['.']
    · exact ⟨cs, by rw [if_pos h2]⟩
    · rw [if_neg h2]
      by_cases h3 : elem = ['.', '.']
      · rw [if_pos h3]
        by_cases h4 : 1 < ('/' :: cs).length
        · rw [if_pos h4]
          have hge := backtrackTo_ge ('/' :: cs) 1 (('/' :: cs).length - 1) (by omega)
          obtain ⟨k, hk⟩ : ∃ k, backtrackTo ('/' :: cs) 1 (('/' :: cs).length - 1) = k + 1 :=
            ⟨_, (Nat.succ_pred_eq_of_pos hge).symm⟩
          exact ⟨cs.take k, by simp only [hk, List.take_succ_cons]⟩
        · rw [if_neg h4]
          exact ⟨cs, by simp⟩
      · rw [if_neg h3]
        by_cases h5 : ((true = true) ∧ ('/' :: cs).length ≠ 1) ∨
            (¬ (true = true) ∧ ('/' :: cs).length ≠ 0)
        · exact ⟨cs ++ ['/'] ++ elem, by rw [if_pos h5]; simp⟩
        · exact ⟨cs ++ elem, by rw [if_neg h5]; simp⟩

theorem cleanFold_rooted (elems : List (List Char)) (cs : List Char) :
    ∃ cs', elems.foldl (cleanStep true) ('/' :: cs, 1) = ('/' :: cs', 1) := by
  induction elems generalizing cs with
  | nil => exact ⟨cs, rfl⟩
  | cons e es ih =>
    obtain ⟨cs1, h1⟩ := cleanStep_rooted cs e
    rw [List.foldl_cons, h1]
    exact ih cs1

theorem IsAbs_iff (p : String) : IsAbs p = true ↔ ∃ cs, p.data = '/' :: cs := by
  unfold IsAbs HasPrefix
  show List.isPrefixOf ['/'] p.data = true ↔ _
  cases p.data with
  | nil => simp [List.isPrefixOf]
  | cons c cs =>
    simp only [List.isPrefixOf, Bool.and_true, beq_iff_eq, List.cons.injEq, exists_and_left,
      exists_eq', and_true]
    exact eq_comm

theorem IsAbs_cleanPath (p : String) (h : IsAbs p = true) : IsAbs (cleanPath p) = true := by
  rw [IsAbs_iff] at h ⊢
  obtain ⟨cs, hcs⟩ := h
  have hne : p ≠ "" := by
    intro hp
    rw [hp] at hcs
    cases hcs
  obtain ⟨cs', hf⟩ := cleanFold_rooted (splitSep p.data) []
  unfold cleanPath
  rw [if_neg hne]
  have hr : decide (p.data.head? = some '/') = true := by simp [hcs]
  simp only [hr, if_true, hf]
  exact ⟨cs', by simp⟩

/-! ## The loop body of `Run` -/

theorem processEntry_of_error (L : Lib) (w : World) (sc : Schema) (root : String)
    (st : RunState) (e msg : String) (h : decodeEntry w sc e = .error msg) :
    processEntry L w sc root st e = st.fail ⟨msg, "", e⟩ := by
  simp [processEntry, h]

theorem processEntry_of_version (L : Lib) (w : World) (sc : Schema) (root : String)
    (st : RunState) (e : String) (md : ArtifactMetadata) (h : decodeEntry w sc e = .ok md)
    (hv : md.SchemaVersion ≠ metadataSchemaVersion) :
    processEntry L w sc root st e =
      st.fail ⟨"unsupported metadata schema_version " ++ L.quote md.SchemaVersion, md.ID, e⟩ := by
  simp [processEntry, h, hv]

theorem processEntry_of_invalid (L : Lib) (w : World) (sc : Schema) (root : String)
    (st : RunState) (e : String) (md : ArtifactMetadata) (h : decodeEntry w sc e = .ok md)
    (hv : md.SchemaVersion = metadataSchemaVersion) (hid : isValidID md.ID = false) :
    processEntry L w sc root st e =
      st.fail ⟨"id must be lowercase kebab-case, numbers, or underscores", md.ID, e⟩ := by
  simp [processEntry, h, hv, hid]

theorem processEntry_of_seen (L : Lib) (w : World) (sc : Schema) (root : String)
    (st : RunState) (e : String) (md : ArtifactMetadata) (h : reachesDuplicateCheck w sc e md)
    (hs : md.ID ∈ st.seenIDs) :
    processEntry L w sc root st e = st.fail ⟨"duplicate id detected", md.ID, e⟩ := by
  simp [processEntry, h.1, h.2.1, h.2.2, hs]

theorem processEntry_of_fresh (L : Lib) (w : World) (sc : Schema) (root : String)
    (st : RunState) (e : String) (md : ArtifactMetadata) (h : reachesDuplicateCheck w sc e md)
    (hs : md.ID ∉ st.seenIDs) :
    processEntry L w sc root st e = acceptEntry L w root st e md := by
  simp [processEntry, h.1, h.2.1, h.2.2, hs]

theorem acceptEntry_of_escaping (L : Lib) (w : World) (root : String) (st : RunState) (e : String)
    (md : ArtifactMetadata) (h : unsafeContentPath md = true) :
    acceptEntry L w root st e md =
      { warnings := st.warnings ++ warningsOf L md e
        validationErrors := st.validationErrors ++
          [⟨"content_path must be a relative path within the repo", md.ID, e⟩]
        artifacts := st.artifacts
        manifestFiles := st.manifestFiles
        seenIDs := md.ID :: st.seenIDs } := by
  unfold unsafeContentPath at h
  simp [acceptEntry, h, RunState.fail, warningsOf]

theorem acceptEntry_of_missing (L : Lib) (w : World) (root : String) (st : RunState) (e : String)
    (md : ArtifactMetadata) (err : String) (h : unsafeContentPath md = false)
    (hstat : w.stat (joinPath [root, cleanPath md.ContentPath]) = some err) :
    acceptEntry L w root st e md =
      { warnings := st.warnings ++ warningsOf L md e
        validationErrors := st.validationErrors ++ [⟨"content_path not found: " ++ err, md.ID, e⟩]
        artifacts := st.artifacts
        manifestFiles := st.manifestFiles
        seenIDs := md.ID :: st.seenIDs } := by
  unfold unsafeContentPath at h
  simp [acceptEntry, h, hstat, RunState.fail, warningsOf]

theorem acceptEntry_of_found (L : Lib) (w : World) (root : String) (st : RunState) (e : String)
    (md : ArtifactMetadata) (h : unsafeContentPath md = false)
    (hstat : w.stat (joinPath [root, cleanPath md.ContentPath]) = none) :
    acceptEntry L w root st e md =
      { warnings := st.warnings ++ warningsOf L md e
        validationErrors := st.validationErrors ++
          (match hashFile w e with
           | .error err => [⟨"failed to hash metadata file: " ++ err, md.ID, e⟩]
           | .ok _ =>
             match hashFile w (joinPath [root, cleanPath md.ContentPath]) with
             | .error err => [⟨"failed to hash content file: " ++ err, md.ID, e⟩]
             | .ok _ => [])
        artifacts := st.artifacts ++ [indexArtifactOf L md e]
        manifestFiles := st.manifestFiles ++
          (match hashFile w e, hashFile w (joinPath [root, cleanPath md.ContentPath]) with
           | .ok metaHash, .ok contentHash =>
             [⟨relativePath w root e, metaHash⟩,
              ⟨relativePath w root (joinPath [root, cleanPath md.ContentPath]), contentHash⟩]
           | _, _ => [])
        seenIDs := md.ID :: st.seenIDs } := by
  unfold unsafeContentPath at h
  simp only [acceptEntry, h, hstat, RunState.fail, warningsOf, indexArtifactOf]
  cases h1 : hashFile w e with
  | error err => simp
  | ok mh =>
    cases h2 : hashFile w (joinPath [root, cleanPath md.ContentPath]) with
    | error err => simp
    | ok ch => simp

theorem decodeEntry_error_ne (w : World) (sc : Schema) (e msg : String)
    (h : decodeEntry w sc e = .error msg) : msg ≠ "duplicate id detected" := by
  intro hm
  have hh : msg.data.head? = some 'd' := by rw [hm]; rfl
  unfold decodeEntry at h
  split at h
  · cases h; simp at hh
  · split at h
    · cases h; simp at hh
    · split at h
      · cases h; simp at hh
      · split at h
        · cases h; simp at hh
        · cases h

/-- What `acceptEntry` does to the accumulators: it marks the identifier as
seen, and appends the warnings of the file, at most one error (which is not
the duplicate-identifier error), and at most the artifact of the file. -/
theorem acceptEntry_shape (L : Lib) (w : World) (root : String) (st : RunState) (e : String)
    (md : ArtifactMetadata) :
    ∃ E A M, acceptEntry L w root st e md =
        { warnings := st.warnings ++ warningsOf L md e
          validationErrors := st.validationErrors ++ E
          artifacts := st.artifacts ++ A
          manifestFiles := st.manifestFiles ++ M
          seenIDs := md.ID :: st.seenIDs } ∧
      (∀ m ∈ E, m.File = e ∧ m.ArtifactID = md.ID ∧ m.Message ≠ "duplicate id detected") ∧
      (∀ a ∈ A, a = indexArtifactOf L md e) := by
  cases hu : unsafeContentPath md with
  | true =>
    refine ⟨[⟨"content_path must be a relative path within the repo", md.ID, e⟩], [], [],
      by rw [acceptEntry_of_escaping L w root st e md hu]; simp, ?_, by simp⟩
    intro m hm
    rw [List.mem_singleton] at hm
    subst hm
    exact ⟨rfl, rfl, show "content_path must be a relative path within the repo" ≠
      "duplicate id detected" by decide⟩
  | false =>
    cases hstat : w.stat (joinPath [root, cleanPath md.ContentPath]) with
    | some err =>
      refine ⟨[⟨"content_path not found: " ++ err, md.ID, e⟩], [], [],
        by rw [acceptEntry_of_missing L w root st e md err hu hstat]; simp, ?_, by simp⟩
      intro m hm
      rw [List.mem_singleton] at hm
      subst hm
      refine ⟨rfl, rfl, fun h => ?_⟩
      have := congrArg (fun s => s.data.head?) h
      simp at this
    | none =>
      refine ⟨_, _, _, acceptEntry_of_found L w root st e md hu hstat, ?_, by simp⟩
      intro m hm
      split at hm
      · rw [List.mem_singleton] at hm
        subst hm
        refine ⟨rfl, rfl, fun h => ?_⟩
        have := congrArg (fun s => s.data.head?) h
        simp at this
      · split at hm
        · rw [List.mem_singleton] at hm
          subst hm
          refine ⟨rfl, rfl, fun h => ?_⟩
          have := congrArg (fun s => s.data.head?) h
          simp at this
        · cases hm

/-- The two ways the loop body can end: one error is recorded and nothing
else changes, or the file reaches `acceptEntry` with a fresh identifier. -/
theorem processEntry_cases (L : Lib) (w : World) (sc : Schema) (root : String) (st : RunState)
    (e : String) :
    (∃ msg, processEntry L w sc root st e = st.fail msg ∧ msg.File = e ∧
      (msg.Message = "duplicate id detected" →
        ∃ md, reachesDuplicateCheck w sc e md ∧ md.ID ∈ st.seenIDs ∧ msg.ArtifactID = md.ID)) ∨
    (∃ md, reachesDuplicateCheck w sc e md ∧ md.ID ∉ st.seenIDs ∧
      processEntry L w sc root st e = acceptEntry L w root st e md) := by
  cases hd : decodeEntry w sc e with
  | error msg =>
    exact Or.inl ⟨_, processEntry_of_error L w sc root st e msg hd, rfl,
      fun h => absurd h (decodeEntry_error_ne w sc e msg hd)⟩
  | ok md =>
    by_cases hv : md.SchemaVersion = metadataSchemaVersion
    · cases hid : isValidID md.ID with
      | false =>
        exact Or.inl ⟨_, processEntry_of_invalid L w sc root st e md hd hv hid, rfl,
          fun h => absurd h (show "id must be lowercase kebab-case, numbers, or underscores" ≠
            "duplicate id detected" by decide)⟩
      | true =>
        by_cases hs : md.ID ∈ st.seenIDs
        · exact Or.inl ⟨_, processEntry_of_seen L w sc root st e md ⟨hd, hv, hid⟩ hs, rfl,
            fun _ => ⟨md, ⟨hd, hv, hid⟩, hs, rfl⟩⟩
        · exact Or.inr ⟨md, ⟨hd, hv, hid⟩, hs, processEntry_of_fresh L w sc root st e md
            ⟨hd, hv, hid⟩ hs⟩
    · refine Or.inl ⟨_, processEntry_of_version L w sc root st e md hd hv, rfl, fun h => ?_⟩
      have := congrArg (fun s => s.data.head?) h
      simp at this

/-! ## Invariants of the loop of `Run` -/

theorem processEntry_seenIDs_mono (L : Lib) (w : World) (sc : Schema) (root : String)
    (st : RunState) (e x : String) (hx : x ∈ st.seenIDs) :
    x ∈ (processEntry L w sc root st e).seenIDs := by
  rcases processEntry_cases L w sc root st e with ⟨msg, h, _, _⟩ | ⟨md, _, _, h⟩
  · rw [h]
    exact hx
  · obtain ⟨E, A, M, hs, _, _⟩ := acceptEntry_shape L w root st e md
    rw [h, hs]
    exact List.mem_cons_of_mem _ hx

theorem processEntry_errors_mono (L : Lib) (w : World) (sc : Schema) (root : String)
    (st : RunState) (e : String) (m : ValidationMessage) (hm : m ∈ st.validationErrors) :
    m ∈ (processEntry L w sc root st e).validationErrors := by
  rcases processEntry_cases L w sc root st e with ⟨msg, h, _, _⟩ | ⟨md, _, _, h⟩
  · rw [h]
    exact List.mem_append_left _ hm
  · obtain ⟨E, A, M, hs, _, _⟩ := acceptEntry_shape L w root st e md
    rw [h, hs]
    exact List.mem_append_left _ hm

theorem processEntry_artifacts_seen (L : Lib) (w : World) (sc : Schema) (root : String)
    (st : RunState) (e : String) (hinv : ∀ a ∈ st.artifacts, a.ID ∈ st.seenIDs) :
    ∀ a ∈ (processEntry L w sc root st e).artifacts,
      a.ID ∈ (processEntry L w sc root st e).seenIDs := by
  rcases processEntry_cases L w sc root st e with ⟨msg, h, _, _⟩ | ⟨md, _, _, h⟩
  · rw [h]
    exact hinv
  · obtain ⟨E, A, M, hs, _, hA⟩ := acceptEntry_shape L w root st e md
    rw [h, hs]
    intro a ha
    rcases List.mem_append.1 ha with ha | ha
    · exact List.mem_cons_of_mem _ (hinv a ha)
    · rw [hA a ha]
      exact List.mem_cons_self _ _

/-- A file that does not carry the identifier `x` changes neither the
artifacts with identifier `x`, nor the duplicate errors for `x`, nor whether
`x` has been seen. -/
theorem processEntry_other (L : Lib) (w : World) (sc : Schema) (root : String)
    (st : RunState) (e x : String)
    (hno : ∀ md, reachesDuplicateCheck w sc e md → md.ID ≠ x) :
    (processEntry L w sc root st e).artifacts.filter (hasID x) = st.artifacts.filter (hasID x) ∧
      (processEntry L w sc root st e).validationErrors.filter (isDuplicateError x) =
        st.validationErrors.filter (isDuplicateError x) ∧
      (x ∈ (processEntry L w sc root st e).seenIDs ↔ x ∈ st.seenIDs) := by
  rcases processEntry_cases L w sc root st e with ⟨msg, h, _, hdup⟩ | ⟨md, hr, _, h⟩
  · rw [h]
    refine ⟨rfl, ?_, Iff.rfl⟩
    have hmsg : isDuplicateError x msg = false := by
      cases hb : isDuplicateError x msg with
      | false => rfl
      | true =>
        simp only [isDuplicateError, Bool.and_eq_true, decide_eq_true_eq] at hb
        obtain ⟨md, hr, _, hid⟩ := hdup hb.1
        exact absurd (hid ▸ hb.2) (hno md hr)
    simp [RunState.fail, List.filter_append, hmsg]
  · obtain ⟨E, A, M, hs, hE, hA⟩ := acceptEntry_shape L w root st e md
    have hne : md.ID ≠ x := hno md hr
    rw [h, hs]
    refine ⟨?_, ?_, ?_⟩
    · have : A.filter (hasID x) = [] := by
        rw [List.filter_eq_nil_iff]
        intro a ha
        rw [hA a ha]
        simpa [hasID, indexArtifactOf] using hne
      simp [List.filter_append, this]
    · have : E.filter (isDuplicateError x) = [] := by
        rw [List.filter_eq_nil_iff]
        intro m hm
        simp [isDuplicateError, (hE m hm).2.2]
      simp [List.filter_append, this]
    · simp [Ne.symm hne]

/-- Once the identifier `x` has been seen, no file adds an artifact with
identifier `x`. -/
theorem processEntry_seen_filter (L : Lib) (w : World) (sc : Schema) (root : String)
    (st : RunState) (e x : String) (hx : x ∈ st.seenIDs) :
    (processEntry L w sc root st e).artifacts.filter (hasID x) = st.artifacts.filter (hasID x) := by
  rcases processEntry_cases L w sc root st e with ⟨msg, h, _, _⟩ | ⟨md, _, hfresh, h⟩
  · rw [h]
    rfl
  · obtain ⟨E, A, M, hs, _, hA⟩ := acceptEntry_shape L w root st e md
    have hne : md.ID ≠ x := fun hh => hfresh (hh ▸ hx)
    rw [h, hs]
    have : A.filter (hasID x) = [] := by
      rw [List.filter_eq_nil_iff]
      intro a ha
      rw [hA a ha]
      simpa [hasID, indexArtifactOf] using hne
    simp [List.filter_append, this]

/-- The loop of `Run`, started in any state, keeps the identifiers seen so far. -/
theorem foldl_seenIDs_mono (L : Lib) (w : World) (sc : Schema) (root : String)
    (es : List String) (st : RunState) (x : String) (hx : x ∈ st.seenIDs) :
    x ∈ (es.foldl (processEntry L w sc root) st).seenIDs := by
  induction es generalizing st with
  | nil => exact hx
  | cons e es ih => exact ih _ (processEntry_seenIDs_mono L w sc root st e x hx)

theorem foldl_errors_mono (L : Lib) (w : World) (sc : Schema) (root : String)
    (es : List String) (st : RunState) (m : ValidationMessage) (hm : m ∈ st.validationErrors) :
    m ∈ (es.foldl (processEntry L w sc root) st).validationErrors := by
  induction es generalizing st with
  | nil => exact hm
  | cons e es ih => exact ih _ (processEntry_errors_mono L w sc root st e m hm)

theorem foldl_artifacts_seen (L : Lib) (w : World) (sc : Schema) (root : String)
    (es : List String) (st : RunState) (hinv : ∀ a ∈ st.artifacts, a.ID ∈ st.seenIDs) :
    ∀ a ∈ (es.foldl (processEntry L w sc root) st).artifacts,
      a.ID ∈ (es.foldl (processEntry L w sc root) st).seenIDs := by
  induction es generalizing st with
  | nil => exact hinv
  | cons e es ih => exact ih _ (processEntry_artifacts_seen L w sc root st e hinv)

theorem foldl_other (L : Lib) (w : World) (sc : Schema) (root : String)
    (es : List String) (st : RunState) (x : String)
    (hno : ∀ e ∈ es, ∀ md, reachesDuplicateCheck w sc e md → md.ID ≠ x) :
    (es.foldl (processEntry L w sc root) st).artifacts.filter (hasID x) =
        st.artifacts.filter (hasID x) ∧
      (es.foldl (processEntry L w sc root) st).validationErrors.filter (isDuplicateError x) =
        st.validationErrors.filter (isDuplicateError x) ∧
      (x ∈ (es.foldl (processEntry L w sc root) st).seenIDs ↔ x ∈ st.seenIDs) := by
  induction es generalizing st with
  | nil => exact ⟨rfl, rfl, Iff.rfl⟩
  | cons e es ih =>
    obtain ⟨h1, h2, h3⟩ := processEntry_other L w sc root st e x
      (hno e (List.mem_cons_self _ _))
    obtain ⟨k1, k2, k3⟩ := ih (processEntry L w sc root st e)
      (fun e' he' => hno e' (List.mem_cons_of_mem _ he'))
    exact ⟨k1.trans h1, k2.trans h2, k3.trans h3⟩

theorem foldl_seen_filter (L : Lib) (w : World) (sc : Schema) (root : String)
    (es : List String) (st : RunState) (x : String) (hx : x ∈ st.seenIDs) :
    (es.foldl (processEntry L w sc root) st).artifacts.filter (hasID x) =
      st.artifacts.filter (hasID x) := by
  induction es generalizing st with
  | nil => rfl
  | cons e es ih =>
    exact (ih _ (processEntry_seenIDs_mono L w sc root st e x hx)).trans
      (processEntry_seen_filter L w sc root st e x hx)

theorem filter_hasID_of_not_seen (st : RunState) (x : String)
    (hinv : ∀ a ∈ st.artifacts, a.ID ∈ st.seenIDs) (hx : x ∉ st.seenIDs) :
    st.artifacts.filter (hasID x) = [] := by
  rw [List.filter_eq_nil_iff]
  intro a ha
  have : a.ID ≠ x := fun h => hx (h ▸ hinv a ha)
  simpa [hasID] using this

theorem runLoop_append (L : Lib) (w : World) (sc : Schema) (root : String)
    (pre post : List String) :
    runLoop L w sc root (pre ++ post) =
      post.foldl (processEntry L w sc root) (runLoop L w sc root pre) := by
  simp [runLoop, List.foldl_append]

theorem runLoop_artifacts_seen (L : Lib) (w : World) (sc : Schema) (root : String)
    (es : List String) :
    ∀ a ∈ (runLoop L w sc root es).artifacts, a.ID ∈ (runLoop L w sc root es).seenIDs :=
  foldl_artifacts_seen L w sc root es RunState.init (fun a ha => by cases ha)


/-! ## From the loop to the documents -/

theorem writeOutputs_index (w : World) (config : Config) (st : RunState) (idx : IndexOutput)
    (hi : (writeOutputs w config st).index = some idx) :
    idx.Artifacts = sortSliceBy IndexArtifact.ID st.artifacts ∧
      idx.Manifest.Files = sortSliceBy ManifestFile.Path st.manifestFiles ∧
      idx.Errors = st.validationErrors ∧ idx.Warnings = st.warnings ∧
      idx.ArtifactCount = idx.Artifacts.length ∧
      ((writeOutputs w config st).manifest = none ∨
        (writeOutputs w config st).manifest = some idx.Manifest) := by
  unfold writeOutputs at hi ⊢
  simp only at hi ⊢
  split at hi
  · cases hi
  · split at hi
    · cases hi
    · split at hi
      · simp only [Option.some.injEq] at hi
        subst hi
        simp
      · split at hi
        · simp only [Option.some.injEq] at hi
          subst hi
          simp
        · split at hi <;> rename_i h <;>
          · simp only [Option.some.injEq] at hi
            subst hi
            simp [h]

theorem Run_eq (L : Lib) (w : World) (config : Config) (sc : Schema) (root : String)
    (entries : List String) (idx : IndexOutput)
    (hs : loadSchema w (joinPath [config.SchemaDir, "artifact_metadata.schema.json"]) = .ok sc)
    (hr : w.getwd = .ok root) (he : collectMetadataFiles w config.ArtifactsDir = .ok entries)
    (hi : (Run L w config).index = some idx) :
    Run L w config = writeOutputs w config (runLoop L w sc root entries) := by
  unfold Run at hi ⊢
  split_ifs at hi ⊢ with hc
  · cases hi
  · simp only [hs, hr, he]

/-! ## The documents written by `Run` -/

set_option maxRecDepth 100000

theorem Run_index_eq (L : Lib) (w : World) (config : Config) (sc : Schema) (root : String)
    (entries : List String) (idx : IndexOutput)
    (hs : loadSchema w (joinPath [config.SchemaDir, "artifact_metadata.schema.json"]) = .ok sc)
    (hr : w.getwd = .ok root) (he : collectMetadataFiles w config.ArtifactsDir = .ok entries)
    (hi : (Run L w config).index = some idx) :
    idx.Artifacts = sortSliceBy IndexArtifact.ID (runLoop L w sc root entries).artifacts ∧
      idx.Manifest.Files =
        sortSliceBy ManifestFile.Path (runLoop L w sc root entries).manifestFiles ∧
      idx.Errors = (runLoop L w sc root entries).validationErrors ∧
      idx.Warnings = (runLoop L w sc root entries).warnings ∧
      idx.ArtifactCount = idx.Artifacts.length ∧
      ((Run L w config).manifest = none ∨ (Run L w config).manifest = some idx.Manifest) := by
  have h := Run_eq L w config sc root entries idx hs hr he hi
  rw [h] at hi ⊢
  exact writeOutputs_index w config _ idx hi

/-- C4: when `Run` writes the index, its artifact list is a permutation of the
accepted-artifact collection of the loop and is sorted ascending by `ID`, its
manifest file list is a permutation of the collected manifest entries and is
sorted ascending by `Path`, and the manifest document, when written, is this
same list. -/
theorem Run_outputs_sorted (L : Lib) (w : World) (config : Config) (sc : Schema) (root : String)
    (entries : List String) (idx : IndexOutput)
    (hs : loadSchema w (joinPath [config.SchemaDir, "artifact_metadata.schema.json"]) = .ok sc)
    (hr : w.getwd = .ok root) (he : collectMetadataFiles w config.ArtifactsDir = .ok entries)
    (hi : (Run L w config).index = some idx) :
    idx.Artifacts.Perm (runLoop L w sc root entries).artifacts ∧
      idx.Artifacts.Sorted (fun a b => a.ID ≤ b.ID) ∧
      idx.Manifest.Files.Perm (runLoop L w sc root entries).manifestFiles ∧
      idx.Manifest.Files.Sorted (fun a b => a.Path ≤ b.Path) ∧
      ((Run L w config).manifest = none ∨ (Run L w config).manifest = some idx.Manifest) := by
  obtain ⟨h1, h2, _, _, _, h6⟩ := Run_index_eq L w config sc root entries idx hs hr he hi
  rw [h1, h2]
  exact ⟨sortSliceBy_perm _ _, sortSliceBy_sorted _ _, sortSliceBy_perm _ _,
    sortSliceBy_sorted _ _, h6⟩

/-- C4 at `twoFilesWorld`, where the walk finds `b` before `a`. -/
theorem Run_outputs_sorted_witness :
    twoFilesIndex.Artifacts.Perm (runLoop demoLib twoFilesWorld demoSchema "/repo"
        ["docs/a.metadata.json", "docs/b.metadata.json"]).artifacts ∧
      twoFilesIndex.Artifacts.Sorted (fun a b => a.ID ≤ b.ID) ∧
      twoFilesIndex.Manifest.Files.Perm (runLoop demoLib twoFilesWorld demoSchema "/repo"
        ["docs/a.metadata.json", "docs/b.metadata.json"]).manifestFiles ∧
      twoFilesIndex.Manifest.Files.Sorted (fun a b => a.Path ≤ b.Path) ∧
      ((Run demoLib twoFilesWorld demoConfig).manifest = none ∨
        (Run demoLib twoFilesWorld demoConfig).manifest = some twoFilesIndex.Manifest) :=
  Run_outputs_sorted demoLib twoFilesWorld demoConfig demoSchema "/repo"
    ["docs/a.metadata.json", "docs/b.metadata.json"] twoFilesIndex rfl rfl rfl (by decide)

theorem sorted_entries_le (pre mid post : List String) (e1 e2 : String)
    (h : (pre ++ e1 :: (mid ++ e2 :: post)).Sorted (· ≤ ·)) : e1 ≤ e2 := by
  have h' := (List.pairwise_append.1 h).2.1
  exact (List.pairwise_cons.1 h').1 e2 (by simp)

theorem collectMetadataFiles_sorted (w : World) (root : String) (entries : List String)
    (h : collectMetadataFiles w root = .ok entries) : entries.Sorted (· ≤ ·) := by
  unfold collectMetadataFiles at h
  split at h
  · cases h
  · cases h
    exact sortStrings_sorted _

/-- C1 (as stated, refuted): in `duplicateEscapeWorld` two files pass the
checks up to the identifier grammar with the same identifier `dup`, and the
index holds no artifact with that identifier: the first file is rejected for
its content path after its identifier was marked as seen. -/
theorem duplicate_after_rejected_first :
    reachesDuplicateCheck duplicateEscapeWorld demoSchema "docs/a.metadata.json"
        (demoMeta "dup" "../a.md" []) ∧
      reachesDuplicateCheck duplicateEscapeWorld demoSchema "docs/b.metadata.json"
        (demoMeta "dup" "content/b.md" []) ∧
      collectMetadataFiles duplicateEscapeWorld demoConfig.ArtifactsDir =
        .ok ["docs/a.metadata.json", "docs/b.metadata.json"] ∧
      (Run demoLib duplicateEscapeWorld demoConfig).index = some duplicateEscapeIndex ∧
      duplicateEscapeIndex.Artifacts.filter (hasID "dup") = [] :=
  ⟨⟨rfl, rfl, rfl⟩, ⟨rfl, rfl, rfl⟩, rfl, by decide, rfl⟩

/-- C1 (amended): when exactly two discovered files `e1`, `e2` (in this order
of the sorted entries) pass the checks up to the identifier grammar with the
same identifier, the error list has exactly one `duplicate id detected`
message for that identifier, attributed to `e2`; and the index has exactly one
artifact with that identifier, built from `e1`, when `e1` also passes the
content-path safety and existence checks, and none otherwise. -/
theorem duplicate_identifier (L : Lib) (w : World) (config : Config) (sc : Schema)
    (root : String) (pre mid post : List String) (e1 e2 : String) (md1 md2 : ArtifactMetadata)
    (idx : IndexOutput)
    (hs : loadSchema w (joinPath [config.SchemaDir, "artifact_metadata.schema.json"]) = .ok sc)
    (hr : w.getwd = .ok root)
    (he : collectMetadataFiles w config.ArtifactsDir = .ok (pre ++ e1 :: (mid ++ e2 :: post)))
    (hi : (Run L w config).index = some idx)
    (h1 : reachesDuplicateCheck w sc e1 md1) (h2 : reachesDuplicateCheck w sc e2 md2)
    (hid : md2.ID = md1.ID)
    (hothers : ∀ e ∈ pre ++ mid ++ post, ∀ md, reachesDuplicateCheck w sc e md →
      md.ID ≠ md1.ID) :
    e1 ≤ e2 ∧
      idx.Errors.filter (isDuplicateError md1.ID) = [⟨"duplicate id detected", md1.ID, e2⟩] ∧
      idx.Artifacts.filter (hasID md1.ID) =
        (if unsafeContentPath md1 = false ∧
            w.stat (joinPath [root, cleanPath md1.ContentPath]) = none
          then [indexArtifactOf L md1 e1] else []) := by
  obtain ⟨hA, _, hE, _, _, _⟩ := Run_index_eq L w config sc root _ idx hs hr he hi
  refine ⟨sorted_entries_le pre mid post e1 e2 (collectMetadataFiles_sorted _ _ _ he), ?_, ?_⟩
  all_goals
    have hpre : ∀ e ∈ pre, ∀ md, reachesDuplicateCheck w sc e md → md.ID ≠ md1.ID :=
      fun e he' => hothers e (by simp [he'])
    have hmid : ∀ e ∈ mid, ∀ md, reachesDuplicateCheck w sc e md → md.ID ≠ md1.ID :=
      fun e he' => hothers e (by simp [he'])
    have hpost : ∀ e ∈ post, ∀ md, reachesDuplicateCheck w sc e md → md.ID ≠ md1.ID :=
      fun e he' => hothers e (by simp [he'])
    have hloop : runLoop L w sc root (pre ++ e1 :: (mid ++ e2 :: post)) =
        post.foldl (processEntry L w sc root) (processEntry L w sc root
          (mid.foldl (processEntry L w sc root)
            (processEntry L w sc root (runLoop L w sc root pre) e1)) e2) := by
      simp [runLoop, List.foldl_append]
    obtain ⟨p1, p2, p3⟩ := foldl_other L w sc root pre RunState.init md1.ID hpre
    have hfresh : md1.ID ∉ (runLoop L w sc root pre).seenIDs := fun h => by
      have := p3.1 h
      cases this
    have hstep1 := processEntry_of_fresh L w sc root _ e1 md1 h1 hfresh
    obtain ⟨E, A, M, hshape, hE1, hA1⟩ := acceptEntry_shape L w root (runLoop L w sc root pre) e1 md1
    obtain ⟨m1, m2, m3⟩ := foldl_other L w sc root mid
      (processEntry L w sc root (runLoop L w sc root pre) e1) md1.ID hmid
    have hseen1 : md1.ID ∈ (processEntry L w sc root (runLoop L w sc root pre) e1).seenIDs := by
      rw [hstep1, hshape]
      exact List.mem_cons_self _ _
    have hseen2 : md2.ID ∈ (mid.foldl (processEntry L w sc root)
        (processEntry L w sc root (runLoop L w sc root pre) e1)).seenIDs := by
      rw [hid]
      exact m3.2 hseen1
    have hstep2 := processEntry_of_seen L w sc root _ e2 md2 h2 hseen2
    obtain ⟨q1, q2, q3⟩ := foldl_other L w sc root post
      (processEntry L w sc root (mid.foldl (processEntry L w sc root)
        (processEntry L w sc root (runLoop L w sc root pre) e1)) e2) md1.ID hpost
  · rw [hE, hloop, q2, hstep2]
    simp only [RunState.fail, List.filter_append, m2]
    rw [hstep1, hshape]
    simp only [List.filter_append]
    have hEf : E.filter (isDuplicateError md1.ID) = [] := by
      rw [List.filter_eq_nil_iff]
      intro m hm
      simp [isDuplicateError, (hE1 m hm).2.2]
    have p2' : (runLoop L w sc root pre).validationErrors.filter (isDuplicateError md1.ID) = [] :=
      p2
    rw [p2', hEf, hid]
    simp [isDuplicateError]
  · have hperm : (idx.Artifacts.filter (hasID md1.ID)).Perm
        ((runLoop L w sc root (pre ++ e1 :: (mid ++ e2 :: post))).artifacts.filter
          (hasID md1.ID)) := by
      rw [hA]
      exact (sortSliceBy_perm _ _).filter _
    have p1' : (runLoop L w sc root pre).artifacts.filter (hasID md1.ID) = [] := p1
    have hfinal : (runLoop L w sc root (pre ++ e1 :: (mid ++ e2 :: post))).artifacts.filter
        (hasID md1.ID) =
        (processEntry L w sc root (runLoop L w sc root pre) e1).artifacts.filter
          (hasID md1.ID) := by
      rw [hloop, q1, hstep2]
      exact m1
    rw [hfinal, hstep1] at hperm
    cases hu : unsafeContentPath md1 with
    | true =>
      rw [acceptEntry_of_escaping L w root _ e1 md1 hu] at hperm
      simp only [p1'] at hperm
      simpa using hperm
    | false =>
      cases hstat : w.stat (joinPath [root, cleanPath md1.ContentPath]) with
      | some err =>
        rw [acceptEntry_of_missing L w root _ e1 md1 err hu hstat] at hperm
        simp only [p1'] at hperm
        simpa using hperm
      | none =>
        rw [acceptEntry_of_found L w root _ e1 md1 hu hstat] at hperm
        simp only [List.filter_append, p1'] at hperm
        have hh : hasID md1.ID (indexArtifactOf L md1 e1) = true := by
          simp [hasID, indexArtifactOf]
        simp only [List.filter_cons, hh, if_true, List.filter_nil, List.nil_append] at hperm
        simpa using hperm

/-- C1 (amended) at `duplicateWorld`. -/
theorem duplicate_identifier_witness :
    "docs/a.metadata.json" ≤ "docs/b.metadata.json" ∧
      duplicateIndex.Errors.filter (isDuplicateError (demoMeta "dup" "content/a.md" []).ID) =
        [⟨"duplicate id detected", (demoMeta "dup" "content/a.md" []).ID,
          "docs/b.metadata.json"⟩] ∧
      duplicateIndex.Artifacts.filter (hasID (demoMeta "dup" "content/a.md" []).ID) =
        (if unsafeContentPath (demoMeta "dup" "content/a.md" []) = false ∧
            duplicateWorld.stat
              (joinPath ["/repo", cleanPath (demoMeta "dup" "content/a.md" []).ContentPath]) = none
          then [indexArtifactOf demoLib (demoMeta "dup" "content/a.md" []) "docs/a.metadata.json"]
          else []) :=
  duplicate_identifier demoLib duplicateWorld demoConfig demoSchema "/repo" [] [] []
    "docs/a.metadata.json" "docs/b.metadata.json" (demoMeta "dup" "content/a.md" [])
    (demoMeta "dup" "content/b.md" []) duplicateIndex rfl rfl rfl (by decide)
    ⟨rfl, rfl, rfl⟩ ⟨rfl, rfl, rfl⟩ rfl (fun e he => by cases he)

theorem unsafeContentPath_of_escape (md : ArtifactMetadata)
    (h : md.ContentPath = "../secret.txt" ∨ IsAbs md.ContentPath = true) :
    unsafeContentPath md = true := by
  unfold unsafeContentPath
  rcases h with h | h
  · rw [h]
    decide
  · rw [IsAbs_cleanPath _ h]
    rfl

/-- C6: a file that passes the checks before the content-path check and whose
`content_path` is `../secret.txt` or an absolute path gets the error
`content_path must be a relative path within the repo`; the index has no
artifact with its identifier, and its iteration adds neither an artifact nor
a manifest entry. -/
theorem unsafe_content_path_rejected (L : Lib) (w : World) (config : Config) (sc : Schema)
    (root : String) (pre post : List String) (e : String) (md : ArtifactMetadata)
    (idx : IndexOutput)
    (hs : loadSchema w (joinPath [config.SchemaDir, "artifact_metadata.schema.json"]) = .ok sc)
    (hr : w.getwd = .ok root)
    (he : collectMetadataFiles w config.ArtifactsDir = .ok (pre ++ e :: post))
    (hi : (Run L w config).index = some idx)
    (hreach : reachesDuplicateCheck w sc e md)
    (hfresh : md.ID ∉ (runLoop L w sc root pre).seenIDs)
    (hpath : md.ContentPath = "../secret.txt" ∨ IsAbs md.ContentPath = true) :
    (⟨"content_path must be a relative path within the repo", md.ID, e⟩ : ValidationMessage) ∈
        idx.Errors ∧
      (∀ a ∈ idx.Artifacts, a.ID ≠ md.ID) ∧
      (processEntry L w sc root (runLoop L w sc root pre) e).artifacts =
        (runLoop L w sc root pre).artifacts ∧
      (processEntry L w sc root (runLoop L w sc root pre) e).manifestFiles =
        (runLoop L w sc root pre).manifestFiles := by
  obtain ⟨hA, _, hE, _, _, _⟩ := Run_index_eq L w config sc root _ idx hs hr he hi
  have hstep : processEntry L w sc root (runLoop L w sc root pre) e = _ :=
    (processEntry_of_fresh L w sc root _ e md hreach hfresh).trans
      (acceptEntry_of_escaping L w root _ e md (unsafeContentPath_of_escape md hpath))
  have hloop : runLoop L w sc root (pre ++ e :: post) =
      post.foldl (processEntry L w sc root)
        (processEntry L w sc root (runLoop L w sc root pre) e) := by
    simp [runLoop, List.foldl_append]
  refine ⟨?_, ?_, by rw [hstep], by rw [hstep]⟩
  · rw [hE, hloop]
    apply foldl_errors_mono
    rw [hstep]
    simp
  · intro a ha hid
    have hmem : a ∈ (runLoop L w sc root (pre ++ e :: post)).artifacts :=
      (sortSliceBy_perm _ _).mem_iff.1 (hA ▸ ha)
    have hfilter : (runLoop L w sc root (pre ++ e :: post)).artifacts.filter (hasID md.ID) =
        [] := by
      rw [hloop, foldl_seen_filter L w sc root post _ md.ID (by rw [hstep]; simp), hstep]
      exact filter_hasID_of_not_seen (runLoop L w sc root pre) md.ID
        (runLoop_artifacts_seen L w sc root pre) hfresh
    have : a ∈ (runLoop L w sc root (pre ++ e :: post)).artifacts.filter (hasID md.ID) :=
      List.mem_filter.2 ⟨hmem, by simp [hasID, hid]⟩
    rw [hfilter] at this
    cases this

/-- C6 at `escapeWorld`. -/
theorem unsafe_content_path_rejected_witness :
    (⟨"content_path must be a relative path within the repo",
        (demoMeta "a" "../secret.txt" []).ID, "docs/a.metadata.json"⟩ : ValidationMessage) ∈
        escapeIndex.Errors ∧
      (∀ a ∈ escapeIndex.Artifacts, a.ID ≠ (demoMeta "a" "../secret.txt" []).ID) ∧
      (processEntry demoLib escapeWorld demoSchema "/repo"
          (runLoop demoLib escapeWorld demoSchema "/repo" []) "docs/a.metadata.json").artifacts =
        (runLoop demoLib escapeWorld demoSchema "/repo" []).artifacts ∧
      (processEntry demoLib escapeWorld demoSchema "/repo"
          (runLoop demoLib escapeWorld demoSchema "/repo" []) "docs/a.metadata.json").manifestFiles =
        (runLoop demoLib escapeWorld demoSchema "/repo" []).manifestFiles :=
  unsafe_content_path_rejected demoLib escapeWorld demoConfig demoSchema "/repo" [] []
    "docs/a.metadata.json" (demoMeta "a" "../secret.txt" []) escapeIndex rfl rfl rfl (by decide)
    ⟨rfl, rfl, rfl⟩ (by decide) (Or.inl rfl)

/-- C7 (the code at the failing input): the content path `..drafts/a.md` is
clean, relative, its first segment is `..drafts` and not `..`, and the file
exists, yet `Run` rejects it as an unsafe content path. -/
theorem dotdot_name_rejected :
    cleanPath "..drafts/a.md" = "..drafts/a.md" ∧
      IsAbs (cleanPath "..drafts/a.md") = false ∧
      (splitSep (cleanPath "..drafts/a.md").data).head? = some "..drafts".data ∧
      dotdotNameWorld.stat (joinPath ["/repo", cleanPath "..drafts/a.md"]) = none ∧
      (Run demoLib dotdotNameWorld demoConfig).index = some (demoIndex
        [⟨"content_path must be a relative path within the repo", "a", "docs/a.metadata.json"⟩]
        [] []) := by
  decide

/-- C2 (the code at the failing input): when hashing the content file fails,
the error is recorded, the run completes, and the artifact of that file is
still in the index. -/
theorem hash_failure_keeps_artifact :
    (Run demoLib directoryWorld demoConfig).index = some (demoIndex
        [⟨"failed to hash content file: is a directory", "a", "docs/a.metadata.json"⟩]
        [] [demoArtifact "a" "content"]) ∧
      (Run demoLib directoryWorld demoConfig).err = none := by
  decide

/-- C10 (the code at the failing input): after a hash failure the index counts
one artifact and the manifest has no entry, not two. -/
theorem hash_failure_manifest_count :
    (Run demoLib directoryWorld demoConfig).index.map
        (fun idx => (idx.ArtifactCount, idx.Artifacts.length, idx.Manifest.Files.length)) =
        some (1, 1, 0) ∧
      (Run demoLib directoryWorld demoConfig).manifest = some ⟨[]⟩ := by
  decide

/-! ## Counting the warnings of `normalizeList` -/

theorem HasPrefix_append (a b c : String) : HasPrefix (a ++ b ++ c) a = true := by
  unfold HasPrefix
  rw [List.isPrefixOf_iff_prefix]
  simp only [String.data_append, List.append_assoc]
  exact List.prefix_append _ _

theorem isDuplicateWarning_duplicate (q a f : String) :
    isDuplicateWarning ⟨"duplicate value " ++ q ++ " removed", a, f⟩ = true :=
  HasPrefix_append _ _ _

theorem isNormalizedWarning_duplicate (q a f : String) :
    isNormalizedWarning ⟨"duplicate value " ++ q ++ " removed", a, f⟩ = false := by
  simp only [isNormalizedWarning, HasPrefix, String.data_append]
  rfl

theorem isNormalizedWarning_normalized (q r a f : String) :
    isNormalizedWarning ⟨"normalized value " ++ q ++ " to " ++ r, a, f⟩ = true := by
  have h : "normalized value " ++ q ++ " to " ++ r = "normalized value " ++ q ++ (" to " ++ r) := by
    simp [String.append_assoc]
  simp only [isNormalizedWarning, h]
  exact HasPrefix_append _ _ _

theorem isDuplicateWarning_normalized (q r a f : String) :
    isDuplicateWarning ⟨"normalized value " ++ q ++ " to " ++ r, a, f⟩ = false := by
  simp only [isDuplicateWarning, HasPrefix, String.data_append]
  rfl

theorem normalizeStep_counts (L : Lib) (a f : String) (st : NormState) (v : String) :
    (normalizeStep L a f st v).normalized.length +
        (normalizeStep L a f st v).warnings.countP isDuplicateWarning =
      st.normalized.length + st.warnings.countP isDuplicateWarning +
        (if TrimSpace v ≠ "" then 1 else 0) ∧
    (normalizeStep L a f st v).warnings.countP isNormalizedWarning =
      st.warnings.countP isNormalizedWarning +
        (if ToLower L (TrimSpace v) ≠ TrimSpace v then 1 else 0) := by
  unfold normalizeStep
  by_cases ht : TrimSpace v = ""
  · have hl : ToLower L (TrimSpace v) = TrimSpace v := by rw [ht]; rfl
    simp only [ht, if_true, ne_eq, not_true_eq_false, if_false, Nat.add_zero, and_self]
    rw [ht] at hl
    simp [hl]
  · simp only [if_neg ht]
    by_cases hs : ToLower L (TrimSpace v) ∈ st.seen
    · simp only [if_pos hs]
      by_cases hl : ToLower L (TrimSpace v) = TrimSpace v
      · simp [ht, hl, List.countP_append, List.countP_cons, isDuplicateWarning_duplicate,
          isNormalizedWarning_duplicate]
        omega
      · simp [ht, hl, List.countP_append, List.countP_cons, isDuplicateWarning_duplicate,
          isNormalizedWarning_duplicate, isNormalizedWarning_normalized,
          isDuplicateWarning_normalized]
        omega
    · simp only [if_neg hs]
      by_cases hl : ToLower L (TrimSpace v) = TrimSpace v
      · simp [ht, hl]
        omega
      · simp [ht, hl, List.countP_append, List.countP_cons, isNormalizedWarning_normalized,
          isDuplicateWarning_normalized]
        omega

theorem normalize_foldl_counts (L : Lib) (a f : String) (values : List String) (st : NormState) :
    (values.foldl (normalizeStep L a f) st).normalized.length +
        (values.foldl (normalizeStep L a f) st).warnings.countP isDuplicateWarning =
      st.normalized.length + st.warnings.countP isDuplicateWarning +
        values.countP (fun v => decide (TrimSpace v ≠ "")) ∧
    (values.foldl (normalizeStep L a f) st).warnings.countP isNormalizedWarning =
      st.warnings.countP isNormalizedWarning +
        values.countP (fun v => decide (ToLower L (TrimSpace v) ≠ TrimSpace v)) := by
  induction values generalizing st with
  | nil => simp
  | cons v vs ih =>
    obtain ⟨h1, h2⟩ := normalizeStep_counts L a f st v
    obtain ⟨k1, k2⟩ := ih (normalizeStep L a f st v)
    rw [List.foldl_cons, k1, k2, h1, h2]
    simp only [List.countP_cons, decide_eq_true_eq]
    constructor <;> omega

/-- C19: the length of the list returned by `normalizeList` plus the number of
`duplicate value ... removed` warnings is the number of input values that are
non-empty after trimming; the number of `normalized value` warnings is the
number of input values whose trimmed form differs from its lower-cased form;
and one value can produce both warnings, as the second value of `["a", "A"]`
does. -/
theorem normalizeList_counts (L : Lib) (values : List String) (artifactID file : String) :
    (normalizeList L values artifactID file).1.length +
        (normalizeList L values artifactID file).2.countP isDuplicateWarning =
      values.countP (fun v => decide (TrimSpace v ≠ "")) ∧
    (normalizeList L values artifactID file).2.countP isNormalizedWarning =
      values.countP (fun v => decide (ToLower L (TrimSpace v) ≠ TrimSpace v)) ∧
    (normalizeList L ["a", "A"] artifactID file).2 =
      [⟨"normalized value " ++ L.quote "A" ++ " to " ++ L.quote "a", artifactID, file⟩,
       ⟨"duplicate value " ++ L.quote "a" ++ " removed", artifactID, file⟩] := by
  obtain ⟨h1, h2⟩ := normalize_foldl_counts L artifactID file values ⟨[], [], []⟩
  refine ⟨?_, ?_, rfl⟩
  · show (sortStrings _).length + _ = _
    rw [(sortStrings_perm _).length_eq]
    simpa using h1
  · simpa using h2

/-! ## Trimming -/

theorem dropWhile_of_head {α : Type} (p : α → Bool) (l : List α)
    (h : ∀ c ∈ l.head?, p c = false) : l.dropWhile p = l := by
  cases l with
  | nil => rfl
  | cons x xs =>
    have hx : p x = false := h x (by simp)
    simp [List.dropWhile, hx]

theorem head?_dropWhile_clean {α : Type} (p : α → Bool) (l : List α) :
    ∀ c ∈ (l.dropWhile p).head?, p c = false := by
  intro c hc
  have h := List.head?_dropWhile_not p l
  rw [Option.mem_def] at hc
  rw [hc] at h
  exact h

theorem head?_of_initial {α : Type} (u m : List α) (h : u <+: m) (hu : u ≠ []) :
    u.head? = m.head? := by
  obtain ⟨s, rfl⟩ := h
  cases u with
  | nil => exact absurd rfl hu
  | cons x xs => rfl

theorem trim_endsClean {α : Type} (p : α → Bool) (l : List α) :
    EndsClean p ((l.dropWhile p).reverse.dropWhile p).reverse := by
  constructor
  · intro c hc
    by_cases hnil : ((l.dropWhile p).reverse.dropWhile p).reverse = []
    · rw [hnil] at hc
      cases hc
    · have hpre : ((l.dropWhile p).reverse.dropWhile p).reverse <+: l.dropWhile p :=
        List.rdropWhile_prefix (p := p) (l := l.dropWhile p)
      rw [head?_of_initial _ _ hpre hnil] at hc
      exact head?_dropWhile_clean p l c hc
  · intro c hc
    rw [List.getLast?_reverse] at hc
    exact head?_dropWhile_clean p _ c hc

theorem trim_of_endsClean {α : Type} (p : α → Bool) (l : List α) (h : EndsClean p l) :
    ((l.dropWhile p).reverse.dropWhile p).reverse = l := by
  rw [dropWhile_of_head p l h.1, dropWhile_of_head p l.reverse, List.reverse_reverse]
  intro c hc
  rw [List.head?_reverse] at hc
  exact h.2 c hc

theorem endsClean_map {α : Type} (p : α → Bool) (g : α → α) (l : List α)
    (hg : ∀ c, p (g c) = true → p c = true) (h : EndsClean p l) : EndsClean p (l.map g) := by
  have key : ∀ c, p c = false → p (g c) = false := by
    intro c hc
    cases hp : p (g c) with
    | false => rfl
    | true => rw [hg c hp] at hc; cases hc
  constructor
  · intro c hc
    rw [List.head?_map, Option.mem_def, Option.map_eq_some'] at hc
    obtain ⟨d, hd, rfl⟩ := hc
    exact key d (h.1 d hd)
  · intro c hc
    rw [List.getLast?_map, Option.mem_def, Option.map_eq_some'] at hc
    obtain ⟨d, hd, rfl⟩ := hc
    exact key d (h.2 d hd)

theorem TrimSpace_endsClean (s : String) : EndsClean isSpace (TrimSpace s).data :=
  trim_endsClean isSpace s.data

theorem TrimSpace_of_endsClean (s : String) (h : EndsClean isSpace s.data) : TrimSpace s = s := by
  unfold TrimSpace
  rw [trim_of_endsClean isSpace s.data h]

/-- A value kept by `normalizeList` is left alone by trimming and lower-casing. -/
theorem normalized_value_fixed (L : Lib) (v : String)
    (hidem : ∀ c, unicodeToLower L (unicodeToLower L c) = unicodeToLower L c)
    (hspace : ∀ c, isSpace (unicodeToLower L c) = true → isSpace c = true)
    (hne : TrimSpace v ≠ "") :
    TrimSpace (ToLower L (TrimSpace v)) = ToLower L (TrimSpace v) ∧
      ToLower L (ToLower L (TrimSpace v)) = ToLower L (TrimSpace v) ∧
      ToLower L (TrimSpace v) ≠ "" := by
  refine ⟨TrimSpace_of_endsClean _ (endsClean_map _ _ _ hspace (TrimSpace_endsClean v)), ?_, ?_⟩
  · unfold ToLower
    simp only [List.map_map]
    congr 1
    exact List.map_congr_left (fun c _ => hidem c)
  · intro h
    apply hne
    have hd : (TrimSpace v).data.map (unicodeToLower L) = [] := congrArg String.data h
    rw [List.map_eq_nil_iff] at hd
    exact String.ext hd

/-- The loop of `normalizeList` copies a list of distinct, already normalized
values and records no warning. -/
theorem normalize_foldl_fixed (L : Lib) (a f : String) (r : List String) (st : NormState)
    (hfix : ∀ x ∈ r, TrimSpace x = x ∧ ToLower L x = x ∧ x ≠ "")
    (hnd : r.Nodup) (hdis : ∀ x ∈ r, x ∉ st.seen) :
    (r.foldl (normalizeStep L a f) st).normalized = st.normalized ++ r ∧
      (r.foldl (normalizeStep L a f) st).warnings = st.warnings := by
  induction r generalizing st with
  | nil => simp
  | cons x xs ih =>
    obtain ⟨h1, h2, h3⟩ := hfix x (List.mem_cons_self _ _)
    have hx : x ∉ st.seen := hdis x (List.mem_cons_self _ _)
    have hstep : normalizeStep L a f st x =
        { normalized := st.normalized ++ [x], warnings := st.warnings, seen := x :: st.seen } := by
      unfold normalizeStep
      simp [h1, h2, h3, hx]
    rw [List.foldl_cons, hstep]
    obtain ⟨k1, k2⟩ := ih
      { normalized := st.normalized ++ [x], warnings := st.warnings, seen := x :: st.seen }
      (fun y hy => hfix y (List.mem_cons_of_mem _ hy))
      (List.nodup_cons.1 hnd).2
      (fun y hy hmem => by
        rcases List.mem_cons.1 hmem with h | h
        · exact (List.nodup_cons.1 hnd).1 (h ▸ hy)
        · exact hdis y (List.mem_cons_of_mem _ hy) h)
    exact ⟨by rw [k1]; simp, k2⟩

/-- C18: `normalizeList` is idempotent: applied to the list it returned, it
returns the same list and no warning.  The case table of the library is
assumed to lower-case idempotently and never to turn a rune that is not white
space into white space. -/
theorem normalizeList_idempotent (L : Lib) (values : List String) (artifactID file : String)
    (hidem : ∀ c, unicodeToLower L (unicodeToLower L c) = unicodeToLower L c)
    (hspace : ∀ c, isSpace (unicodeToLower L c) = true → isSpace c = true) :
    normalizeList L (normalizeList L values artifactID file).1 artifactID file =
      ((normalizeList L values artifactID file).1, []) := by
  have hfix : ∀ x ∈ (normalizeList L values artifactID file).1,
      TrimSpace x = x ∧ ToLower L x = x ∧ x ≠ "" := by
    intro x hx
    obtain ⟨v, _, hne, rfl⟩ := (mem_normalizeList L values artifactID file x).1 hx
    exact normalized_value_fixed L v hidem hspace hne
  obtain ⟨k1, k2⟩ := normalize_foldl_fixed L artifactID file _ ⟨[], [], []⟩ hfix
    (normalizeList_nodup L values artifactID file) (fun _ _ h => by cases h)
  have hsorted : sortStrings (normalizeList L values artifactID file).1 =
      (normalizeList L values artifactID file).1 :=
    List.Sorted.insertionSort_eq
      (@List.sorted_insertionSort String strLE _ ⟨strLE_total⟩
        ⟨fun _ _ _ h1 h2 => strLE_trans h1 h2⟩ _)
  show (sortStrings _, _) = _
  rw [k1, k2]
  simp only [List.nil_append]
  rw [hsorted]

theorem demoLib_space (c : Char) (h : isSpace (unicodeToLower demoLib c) = true) :
    isSpace c = true := by
  by_cases hu : c.toNat ≤ 0x7F ∧ 'A'.toNat ≤ c.toNat ∧ c.toNat ≤ 'Z'.toNat
  · have hc : c = Char.ofNat c.toNat := (Char.ofNat_toNat c).symm
    obtain ⟨_, h1, h2⟩ := hu
    generalize c.toNat = n at hc h1 h2
    subst hc
    have h1' : 65 ≤ n := h1
    have h2' : n ≤ 90 := h2
    interval_cases n <;> exact absurd h (by decide)
  · have h1 : unicodeToLower demoLib c = c := by
      unfold unicodeToLower
      split_ifs with ha hb
      · exact absurd ⟨ha, hb⟩ hu
      · rfl
      · rfl
    rwa [h1] at h

/-- C18 at the tags `["API", "api", " Keys "]`. -/
theorem normalizeList_idempotent_witness :
    normalizeList demoLib (normalizeList demoLib ["API", "api", " Keys "] "k" "f").1 "k" "f" =
      ((normalizeList demoLib ["API", "api", " Keys "] "k" "f").1, []) :=
  normalizeList_idempotent demoLib ["API", "api", " Keys "] "k" "f" demoLib_idem demoLib_space

/-! ## Accepted artifacts -/

theorem processEntry_artifacts_built (L : Lib) (w : World) (sc : Schema) (root : String)
    (st : RunState) (e : String)
    (hinv : ∀ a ∈ st.artifacts, BuiltFromAccepted L w sc root a) :
    ∀ a ∈ (processEntry L w sc root st e).artifacts, BuiltFromAccepted L w sc root a := by
  rcases processEntry_cases L w sc root st e with ⟨msg, h, _, _⟩ | ⟨md, hr, _, h⟩
  · rw [h]
    exact hinv
  · rw [h]
    cases hu : unsafeContentPath md with
    | true =>
      rw [acceptEntry_of_escaping L w root st e md hu]
      exact hinv
    | false =>
      cases hstat : w.stat (joinPath [root, cleanPath md.ContentPath]) with
      | some err =>
        rw [acceptEntry_of_missing L w root st e md err hu hstat]
        exact hinv
      | none =>
        rw [acceptEntry_of_found L w root st e md hu hstat]
        intro a ha
        rcases List.mem_append.1 ha with ha | ha
        · exact hinv a ha
        · rw [List.mem_singleton] at ha
          exact ⟨e, md, hr, hu, hstat, ha⟩

theorem processEntry_ids_nodup (L : Lib) (w : World) (sc : Schema) (root : String)
    (st : RunState) (e : String) (hseen : ∀ a ∈ st.artifacts, a.ID ∈ st.seenIDs)
    (hnd : (st.artifacts.map IndexArtifact.ID).Nodup) :
    ((processEntry L w sc root st e).artifacts.map IndexArtifact.ID).Nodup := by
  rcases processEntry_cases L w sc root st e with ⟨msg, h, _, _⟩ | ⟨md, _, hfresh, h⟩
  · rw [h]
    exact hnd
  · obtain ⟨E, A, M, hs, _, hA⟩ := acceptEntry_shape L w root st e md
    rw [h, hs]
    simp only [List.map_append]
    have hAcases : A = [] ∨ A = [indexArtifactOf L md e] := by
      cases hu : unsafeContentPath md with
      | true =>
        have := hs.symm.trans (acceptEntry_of_escaping L w root st e md hu)
        have h2 := congrArg RunState.artifacts this
        simp only at h2
        exact Or.inl (by simpa using h2)
      | false =>
        cases hstat : w.stat (joinPath [root, cleanPath md.ContentPath]) with
        | some err =>
          have := hs.symm.trans (acceptEntry_of_missing L w root st e md err hu hstat)
          have h2 := congrArg RunState.artifacts this
          simp only at h2
          exact Or.inl (by simpa using h2)
        | none =>
          have := hs.symm.trans (acceptEntry_of_found L w root st e md hu hstat)
          have h2 := congrArg RunState.artifacts this
          simp only at h2
          exact Or.inr (by simpa using h2)
    rcases hAcases with rfl | rfl
    · simpa using hnd
    · refine List.Nodup.append hnd (List.nodup_singleton _) ?_
      intro x hx1 hx2
      rw [List.map_singleton, List.mem_singleton] at hx2
      obtain ⟨a, ha, rfl⟩ := List.mem_map.1 hx1
      apply hfresh
      have : md.ID = a.ID := hx2.symm
      rw [this]
      exact hseen a ha

theorem runLoop_artifacts_built (L : Lib) (w : World) (sc : Schema) (root : String)
    (es : List String) :
    ∀ a ∈ (runLoop L w sc root es).artifacts, BuiltFromAccepted L w sc root a := by
  have key : ∀ (es : List String) (st : RunState),
      (∀ a ∈ st.artifacts, BuiltFromAccepted L w sc root a) →
      ∀ a ∈ (es.foldl (processEntry L w sc root) st).artifacts,
        BuiltFromAccepted L w sc root a := by
    intro es
    induction es with
    | nil => exact fun st h => h
    | cons e es ih =>
      exact fun st h => ih _ (processEntry_artifacts_built L w sc root st e h)
  exact key es RunState.init (fun a ha => by cases ha)

theorem runLoop_ids_nodup (L : Lib) (w : World) (sc : Schema) (root : String)
    (es : List String) :
    ((runLoop L w sc root es).artifacts.map IndexArtifact.ID).Nodup := by
  have key : ∀ (es : List String) (st : RunState),
      (∀ a ∈ st.artifacts, a.ID ∈ st.seenIDs) → (st.artifacts.map IndexArtifact.ID).Nodup →
      ((es.foldl (processEntry L w sc root) st).artifacts.map IndexArtifact.ID).Nodup := by
    intro es
    induction es with
    | nil => exact fun st _ h => h
    | cons e es ih =>
      exact fun st h1 h2 => ih _ (processEntry_artifacts_seen L w sc root st e h1)
        (processEntry_ids_nodup L w sc root st e h1 h2)
  exact key es RunState.init (fun a ha => by cases ha) List.nodup_nil

/-- C11: the artifacts of the index have pairwise distinct identifiers, and
each one has an identifier accepted by `isValidID`, the schema version
`1.0.0`, a slug equal to its identifier, and a content path whose cleaned form
is relative, does not start with `..`, and exists under the repository root. -/
theorem index_artifacts_invariant (L : Lib) (w : World) (config : Config) (sc : Schema)
    (root : String) (entries : List String) (idx : IndexOutput)
    (hs : loadSchema w (joinPath [config.SchemaDir, "artifact_metadata.schema.json"]) = .ok sc)
    (hr : w.getwd = .ok root) (he : collectMetadataFiles w config.ArtifactsDir = .ok entries)
    (hi : (Run L w config).index = some idx) :
    idx.Artifacts.Pairwise (fun a b => a.ID ≠ b.ID) ∧
      ∀ a ∈ idx.Artifacts, isValidID a.ID = true ∧ a.SchemaVersion = "1.0.0" ∧ a.Slug = a.ID ∧
        IsAbs (cleanPath a.ContentPath) = false ∧
        HasPrefix (cleanPath a.ContentPath) ".." = false ∧
        w.stat (joinPath [root, cleanPath a.ContentPath]) = none := by
  obtain ⟨hA, _, _, _, _, _⟩ := Run_index_eq L w config sc root entries idx hs hr he hi
  have hperm : idx.Artifacts.Perm (runLoop L w sc root entries).artifacts :=
    hA ▸ sortSliceBy_perm _ _
  constructor
  · have hnd : (idx.Artifacts.map IndexArtifact.ID).Nodup :=
      (List.Perm.nodup_iff (hperm.map _)).2 (runLoop_ids_nodup L w sc root entries)
    exact (List.pairwise_map.1 hnd)
  · intro a ha
    obtain ⟨e, md, hreach, hu, hstat, rfl⟩ :=
      runLoop_artifacts_built L w sc root entries a (hperm.mem_iff.1 ha)
    unfold unsafeContentPath at hu
    rw [Bool.or_eq_false_iff] at hu
    exact ⟨hreach.2.2, hreach.2.1, rfl, hu.1, hu.2, hstat⟩

/-- C11 at `twoFilesWorld`. -/
theorem index_artifacts_invariant_witness :
    twoFilesIndex.Artifacts.Pairwise (fun a b => a.ID ≠ b.ID) ∧
      ∀ a ∈ twoFilesIndex.Artifacts, isValidID a.ID = true ∧ a.SchemaVersion = "1.0.0" ∧
        a.Slug = a.ID ∧ IsAbs (cleanPath a.ContentPath) = false ∧
        HasPrefix (cleanPath a.ContentPath) ".." = false ∧
        twoFilesWorld.stat (joinPath ["/repo", cleanPath a.ContentPath]) = none :=
  index_artifacts_invariant demoLib twoFilesWorld demoConfig demoSchema "/repo"
    ["docs/a.metadata.json", "docs/b.metadata.json"] twoFilesIndex rfl rfl rfl (by decide)

/-! ## `buildSearchableText` -/

theorem foldl_writePart (L : Lib) (vs : List String) (b : String) :
    vs.foldl (writePart L) b =
      ((vs.filter (fun v => decide (v ≠ ""))).map (ToLower L)).foldl
        (fun acc x => acc ++ x ++ " ") b := by
  induction vs generalizing b with
  | nil => rfl
  | cons v vs ih =>
    rw [List.foldl_cons, ih]
    by_cases hv : v = ""
    · simp [writePart, hv]
    · simp [writePart, hv]

theorem buildSearchableText_foldl (L : Lib) (parts : List Part) :
    buildSearchableText L parts =
      TrimSpace ((parts.flatMap Part.values).foldl (writePart L) "") := by
  unfold buildSearchableText
  congr 1
  generalize ("" : String) = b
  induction parts generalizing b with
  | nil => rfl
  | cons p ps ih =>
    rw [List.foldl_cons, ih]
    cases p with
    | str v => simp [List.flatMap, Part.values]
    | strs vs => simp [List.flatMap, Part.values, List.foldl_append]

theorem intercalate_go_append (xs : List String) (acc : String) :
    String.intercalate.go acc " " xs ++ " " =
      xs.foldl (fun acc x => acc ++ x ++ " ") (acc ++ " ") := by
  induction xs generalizing acc with
  | nil => rfl
  | cons x xs ih =>
    rw [String.intercalate.go, ih, List.foldl_cons]

theorem foldl_eq_intercalate (xs : List String) (hne : xs ≠ []) :
    xs.foldl (fun acc x => acc ++ x ++ " ") "" = " ".intercalate xs ++ " " := by
  cases xs with
  | nil => exact absurd rfl hne
  | cons x xs =>
    rw [List.foldl_cons, String.intercalate, intercalate_go_append]
    simp

theorem trim_append_space (l : List Char) :
    (((l ++ [' ']).dropWhile isSpace).reverse.dropWhile isSpace).reverse =
      ((l.dropWhile isSpace).reverse.dropWhile isSpace).reverse := by
  have hsp : isSpace ' ' = true := by decide
  rw [List.dropWhile_append]
  by_cases hnil : (l.dropWhile isSpace).isEmpty = true
  · rw [if_pos hnil]
    have : l.dropWhile isSpace = [] := List.isEmpty_iff.1 hnil
    rw [this]
    simp [List.dropWhile, hsp]
  · rw [if_neg hnil]
    simp [List.dropWhile, hsp]

theorem TrimSpace_append_space (s : String) : TrimSpace (s ++ " ") = TrimSpace s := by
  unfold TrimSpace
  rw [String.data_append]
  exact congrArg String.mk (trim_append_space s.data)

/-- The text built by `buildSearchableText`: the non-empty strings of the
parts, in order, each lower-cased, joined by one space, and trimmed. -/
theorem buildSearchableText_eq (L : Lib) (parts : List Part) :
    buildSearchableText L parts =
      TrimSpace (" ".intercalate
        (((parts.flatMap Part.values).filter (fun v => decide (v ≠ ""))).map (ToLower L))) := by
  rw [buildSearchableText_foldl, foldl_writePart]
  by_cases hne : ((parts.flatMap Part.values).filter (fun v => decide (v ≠ ""))).map (ToLower L)
      = []
  · rw [hne]
    rfl
  · rw [foldl_eq_intercalate _ hne, TrimSpace_append_space]

theorem ToLower_eq_empty (L : Lib) (s : String) : ToLower L s = "" ↔ s = "" := by
  constructor
  · intro h
    have hd : s.data.map (unicodeToLower L) = [] := congrArg String.data h
    rw [List.map_eq_nil_iff] at hd
    exact String.ext hd
  · rintro rfl
    rfl

theorem normalized_value_lower (L : Lib) (values : List String) (a f x : String)
    (hidem : ∀ c, unicodeToLower L (unicodeToLower L c) = unicodeToLower L c)
    (hx : x ∈ (normalizeList L values a f).1) : x ≠ "" ∧ ToLower L x = x := by
  obtain ⟨v, _, hne, rfl⟩ := (mem_normalizeList L values a f x).1 hx
  refine ⟨fun h => hne ((ToLower_eq_empty L _).1 h), ?_⟩
  unfold ToLower
  simp only [List.map_map]
  congr 1
  exact List.map_congr_left (fun c _ => hidem c)

theorem filter_map_normalized (L : Lib) (values : List String) (a f : String)
    (hidem : ∀ c, unicodeToLower L (unicodeToLower L c) = unicodeToLower L c) :
    ((normalizeList L values a f).1.filter (fun v => decide (v ≠ ""))).map (ToLower L) =
      (normalizeList L values a f).1 := by
  have h1 : (normalizeList L values a f).1.filter (fun v => decide (v ≠ "")) =
      (normalizeList L values a f).1 := by
    rw [List.filter_eq_self]
    intro x hx
    simpa using (normalized_value_lower L values a f x hidem hx).1
  rw [h1]
  conv_rhs => rw [← List.map_id (normalizeList L values a f).1]
  exact List.map_congr_left (fun x hx => (normalized_value_lower L values a f x hidem hx).2)

theorem filter_map_pair (L : Lib) (t d : String) :
    ([t, d].filter (fun v => decide (v ≠ ""))).map (ToLower L) =
      [ToLower L t, ToLower L d].filter (fun v => decide (v ≠ "")) := by
  by_cases ht : t = "" <;> by_cases hd : d = "" <;>
    simp [List.filter_cons, ht, hd, ToLower_eq_empty]

/-- C14: the searchable text of an artifact of the index is the concatenation,
separated by single spaces and trimmed, of the non-empty strings among the
title, the description, the tags, the categories and the tools, in this order,
each lower-cased; since the three lists are already normalized (lower-casing
being idempotent), this is the lower-cased title and description followed by
the normalized tags, categories and tools; and `buildSearchableText` of parts
that are all empty is the empty string. -/
theorem searchable_text (L : Lib) (w : World) (config : Config) (sc : Schema)
    (root : String) (entries : List String) (idx : IndexOutput) (a : IndexArtifact)
    (hs : loadSchema w (joinPath [config.SchemaDir, "artifact_metadata.schema.json"]) = .ok sc)
    (hr : w.getwd = .ok root) (he : collectMetadataFiles w config.ArtifactsDir = .ok entries)
    (hi : (Run L w config).index = some idx) (ha : a ∈ idx.Artifacts)
    (hidem : ∀ c, unicodeToLower L (unicodeToLower L c) = unicodeToLower L c) :
    a.SearchableText = TrimSpace (" ".intercalate
        ((([a.Title, a.Description] ++ a.Tags ++ a.Categories ++ a.ToolsSupported).filter
          (fun v => decide (v ≠ ""))).map (ToLower L))) ∧
      a.SearchableText = TrimSpace (" ".intercalate
        ([ToLower L a.Title, ToLower L a.Description].filter (fun v => decide (v ≠ "")) ++
          a.Tags ++ a.Categories ++ a.ToolsSupported)) ∧
      ∀ parts : List Part, (∀ v ∈ parts.flatMap Part.values, v = "") →
        buildSearchableText L parts = "" := by
  obtain ⟨hA, _, _, _, _, _⟩ := Run_index_eq L w config sc root entries idx hs hr he hi
  have hmem : a ∈ (runLoop L w sc root entries).artifacts :=
    (sortSliceBy_perm _ _).mem_iff.1 (hA ▸ ha)
  obtain ⟨e, md, _, _, _, rfl⟩ := runLoop_artifacts_built L w sc root entries a hmem
  have h1 : (indexArtifactOf L md e).SearchableText = TrimSpace (" ".intercalate
      ((([md.Title, md.Description] ++ (normalizeList L md.Tags md.ID e).1 ++
          (normalizeList L md.Categories md.ID e).1 ++
          (normalizeList L md.ToolsSupported md.ID e).1).filter
        (fun v => decide (v ≠ ""))).map (ToLower L))) := by
    show buildSearchableText L _ = _
    rw [buildSearchableText_eq]
    simp [List.flatMap, Part.values]
  refine ⟨h1, ?_, ?_⟩
  · rw [h1]
    simp only [List.filter_append, List.map_append, filter_map_normalized L _ _ _ hidem,
      filter_map_pair]
    rfl
  · intro parts hall
    rw [buildSearchableText_eq]
    have : (parts.flatMap Part.values).filter (fun v => decide (v ≠ "")) = [] := by
      rw [List.filter_eq_nil_iff]
      intro v hv
      simp [hall v hv]
    rw [this]
    rfl

/-- C14 at `taggedWorld`: the searchable text is `t d api keys`. -/
theorem searchable_text_witness :
    taggedArtifact.SearchableText = TrimSpace (" ".intercalate
        ((([taggedArtifact.Title, taggedArtifact.Description] ++ taggedArtifact.Tags ++
            taggedArtifact.Categories ++ taggedArtifact.ToolsSupported).filter
          (fun v => decide (v ≠ ""))).map (ToLower demoLib))) ∧
      taggedArtifact.SearchableText = TrimSpace (" ".intercalate
        ([ToLower demoLib taggedArtifact.Title, ToLower demoLib taggedArtifact.Description].filter
            (fun v => decide (v ≠ "")) ++
          taggedArtifact.Tags ++ taggedArtifact.Categories ++ taggedArtifact.ToolsSupported)) ∧
      ∀ parts : List Part, (∀ v ∈ parts.flatMap Part.values, v = "") →
        buildSearchableText demoLib parts = "" :=
  searchable_text demoLib taggedWorld demoConfig demoSchema "/repo"
    ["docs/api-keys.metadata.json"] taggedIndex taggedArtifact rfl rfl rfl (by decide)
    (List.mem_singleton.2 rfl) demoLib_idem

/-- C20: an identifier is marked as seen before the content-path checks: when
the first file with a valid identifier fails the content-path safety or
existence check and a later file carries the same identifier, the later file
gets the error `duplicate id detected`, the first file has its content-path
error, and the index has no artifact with that identifier. -/
theorem seen_before_content_checks (L : Lib) (w : World) (config : Config) (sc : Schema)
    (root : String) (pre mid post : List String) (e1 e2 : String) (md1 md2 : ArtifactMetadata)
    (idx : IndexOutput)
    (hs : loadSchema w (joinPath [config.SchemaDir, "artifact_metadata.schema.json"]) = .ok sc)
    (hr : w.getwd = .ok root)
    (he : collectMetadataFiles w config.ArtifactsDir = .ok (pre ++ e1 :: (mid ++ e2 :: post)))
    (hi : (Run L w config).index = some idx)
    (h1 : reachesDuplicateCheck w sc e1 md1) (h2 : reachesDuplicateCheck w sc e2 md2)
    (hid : md2.ID = md1.ID) (hfresh : md1.ID ∉ (runLoop L w sc root pre).seenIDs)
    (hfail : unsafeContentPath md1 = true ∨
      w.stat (joinPath [root, cleanPath md1.ContentPath]) ≠ none) :
    md1.ID ∈ (processEntry L w sc root (runLoop L w sc root pre) e1).seenIDs ∧
      (⟨"duplicate id detected", md1.ID, e2⟩ : ValidationMessage) ∈ idx.Errors ∧
      (∃ m ∈ idx.Errors, m.File = e1 ∧ m.ArtifactID = md1.ID ∧
        (m.Message = "content_path must be a relative path within the repo" ∨
          ∃ err, m.Message = "content_path not found: " ++ err)) ∧
      ∀ a ∈ idx.Artifacts, a.ID ≠ md1.ID := by
  obtain ⟨hA, _, hE, _, _, _⟩ := Run_index_eq L w config sc root _ idx hs hr he hi
  have hloop : runLoop L w sc root (pre ++ e1 :: (mid ++ e2 :: post)) =
      post.foldl (processEntry L w sc root) (processEntry L w sc root
        (mid.foldl (processEntry L w sc root)
          (processEntry L w sc root (runLoop L w sc root pre) e1)) e2) := by
    simp [runLoop, List.foldl_append]
  have hstep1 := processEntry_of_fresh L w sc root _ e1 md1 h1 hfresh
  -- the state after the first file
  have hfirst : md1.ID ∈ (processEntry L w sc root (runLoop L w sc root pre) e1).seenIDs ∧
      (processEntry L w sc root (runLoop L w sc root pre) e1).artifacts =
        (runLoop L w sc root pre).artifacts ∧
      ∃ m ∈ (processEntry L w sc root (runLoop L w sc root pre) e1).validationErrors,
        m.File = e1 ∧ m.ArtifactID = md1.ID ∧
        (m.Message = "content_path must be a relative path within the repo" ∨
          ∃ err, m.Message = "content_path not found: " ++ err) := by
    rw [hstep1]
    cases hu : unsafeContentPath md1 with
    | true =>
      rw [acceptEntry_of_escaping L w root _ e1 md1 hu]
      exact ⟨List.mem_cons_self _ _, rfl, _, List.mem_append_right _ (List.mem_singleton.2 rfl),
        rfl, rfl, Or.inl rfl⟩
    | false =>
      cases hstat : w.stat (joinPath [root, cleanPath md1.ContentPath]) with
      | none =>
        rcases hfail with h | h
        · rw [hu] at h
          cases h
        · exact absurd hstat h
      | some err =>
        rw [acceptEntry_of_missing L w root _ e1 md1 err hu hstat]
        exact ⟨List.mem_cons_self _ _, rfl, _,
          List.mem_append_right _ (List.mem_singleton.2 rfl), rfl, rfl, Or.inr ⟨err, rfl⟩⟩
  obtain ⟨hseen1, hart1, m, hm, hmf, hmi, hmm⟩ := hfirst
  have hseen2 : md2.ID ∈ (mid.foldl (processEntry L w sc root)
      (processEntry L w sc root (runLoop L w sc root pre) e1)).seenIDs := by
    rw [hid]
    exact foldl_seenIDs_mono L w sc root mid _ _ hseen1
  have hstep2 := processEntry_of_seen L w sc root _ e2 md2 h2 hseen2
  refine ⟨hseen1, ?_, ⟨m, ?_, hmf, hmi, hmm⟩, ?_⟩
  · rw [hE, hloop]
    apply foldl_errors_mono
    rw [hstep2, hid]
    exact List.mem_append_right _ (List.mem_singleton.2 rfl)
  · rw [hE, hloop]
    apply foldl_errors_mono
    apply processEntry_errors_mono
    exact foldl_errors_mono L w sc root mid _ m hm
  · intro a ha haid
    have hmem : a ∈ (runLoop L w sc root (pre ++ e1 :: (mid ++ e2 :: post))).artifacts :=
      (sortSliceBy_perm _ _).mem_iff.1 (hA ▸ ha)
    have hrest : runLoop L w sc root (pre ++ e1 :: (mid ++ e2 :: post)) =
        (mid ++ e2 :: post).foldl (processEntry L w sc root)
          (processEntry L w sc root (runLoop L w sc root pre) e1) := by
      simp [runLoop, List.foldl_append]
    have hfilter : (runLoop L w sc root (pre ++ e1 :: (mid ++ e2 :: post))).artifacts.filter
        (hasID md1.ID) = [] := by
      rw [hrest, foldl_seen_filter L w sc root _ _ md1.ID hseen1, hart1]
      exact filter_hasID_of_not_seen (runLoop L w sc root pre) md1.ID
        (runLoop_artifacts_seen L w sc root pre) hfresh
    have : a ∈ (runLoop L w sc root (pre ++ e1 :: (mid ++ e2 :: post))).artifacts.filter
        (hasID md1.ID) := List.mem_filter.2 ⟨hmem, by simp [hasID, haid]⟩
    rw [hfilter] at this
    cases this

/-- C20 at `duplicateEscapeWorld`. -/
theorem seen_before_content_checks_witness :
    (demoMeta "dup" "../a.md" []).ID ∈ (processEntry demoLib duplicateEscapeWorld demoSchema
        "/repo" (runLoop demoLib duplicateEscapeWorld demoSchema "/repo" [])
        "docs/a.metadata.json").seenIDs ∧
      (⟨"duplicate id detected", (demoMeta "dup" "../a.md" []).ID, "docs/b.metadata.json"⟩ :
        ValidationMessage) ∈ duplicateEscapeIndex.Errors ∧
      (∃ m ∈ duplicateEscapeIndex.Errors, m.File = "docs/a.metadata.json" ∧
        m.ArtifactID = (demoMeta "dup" "../a.md" []).ID ∧
        (m.Message = "content_path must be a relative path within the repo" ∨
          ∃ err, m.Message = "content_path not found: " ++ err)) ∧
      ∀ a ∈ duplicateEscapeIndex.Artifacts, a.ID ≠ (demoMeta "dup" "../a.md" []).ID :=
  seen_before_content_checks demoLib duplicateEscapeWorld demoConfig demoSchema "/repo" [] [] []
    "docs/a.metadata.json" "docs/b.metadata.json" (demoMeta "dup" "../a.md" [])
    (demoMeta "dup" "content/b.md" []) duplicateEscapeIndex rfl rfl rfl (by decide)
    ⟨rfl, rfl, rfl⟩ ⟨rfl, rfl, rfl⟩ rfl (by decide) (Or.inl (by decide))

/-! ## One error per file, from the earliest failing check -/

theorem processEntry_errors_eq (L : Lib) (w : World) (sc : Schema) (root : String)
    (st : RunState) (e : String) :
    (processEntry L w sc root st e).validationErrors =
      st.validationErrors ++ (earliestFailure L w sc root st.seenIDs e).toList := by
  cases h1 : w.readFile e with
  | error err =>
    rw [processEntry_of_error L w sc root st e ("failed to read metadata: " ++ err)
      (by simp [decodeEntry, h1])]
    simp [earliestFailure, checksInOrder, decodedMeta, RunState.fail, List.findSome?, h1]
  | ok raw =>
    cases h2 : w.unmarshalAny raw with
    | error err =>
      rw [processEntry_of_error L w sc root st e ("invalid JSON: " ++ err)
        (by simp [decodeEntry, h1, h2])]
      simp [earliestFailure, checksInOrder, decodedMeta, RunState.fail, List.findSome?, h1, h2]
    | ok data =>
      cases h3 : sc.Validate data with
      | some err =>
        rw [processEntry_of_error L w sc root st e ("schema validation failed: " ++ err)
          (by simp [decodeEntry, h1, h2, h3])]
        simp [earliestFailure, checksInOrder, decodedMeta, RunState.fail, List.findSome?, h1, h2,
          h3]
      | none =>
        cases h4 : w.unmarshalMeta raw with
        | error err =>
          rw [processEntry_of_error L w sc root st e ("failed to parse metadata: " ++ err)
            (by simp [decodeEntry, h1, h2, h3, h4])]
          simp [earliestFailure, checksInOrder, decodedMeta, RunState.fail, List.findSome?, h1,
            h2, h3, h4]
        | ok md =>
          have hd : decodeEntry w sc e = .ok md := by simp [decodeEntry, h1, h2, h3, h4]
          by_cases hv : md.SchemaVersion = metadataSchemaVersion
          · cases hid : isValidID md.ID with
            | false =>
              rw [processEntry_of_invalid L w sc root st e md hd hv hid]
              simp [earliestFailure, checksInOrder, decodedMeta, RunState.fail, List.findSome?, h1,
                h2, h3, h4, hv, hid]
            | true =>
              by_cases hseen : md.ID ∈ st.seenIDs
              · rw [processEntry_of_seen L w sc root st e md ⟨hd, hv, hid⟩ hseen]
                simp [earliestFailure, checksInOrder, decodedMeta, RunState.fail, List.findSome?, h1,
                  h2, h3, h4, hv, hid, hseen]
              · rw [processEntry_of_fresh L w sc root st e md ⟨hd, hv, hid⟩ hseen]
                cases hu : unsafeContentPath md with
                | true =>
                  rw [acceptEntry_of_escaping L w root st e md hu]
                  simp [earliestFailure, checksInOrder, decodedMeta, List.findSome?, h1, h2, h3,
                    h4, hv, hid, hseen, hu]
                | false =>
                  cases hstat : w.stat (joinPath [root, cleanPath md.ContentPath]) with
                  | some err =>
                    rw [acceptEntry_of_missing L w root st e md err hu hstat]
                    simp [earliestFailure, checksInOrder, decodedMeta, List.findSome?, h1, h2,
                      h3, h4, hv, hid, hseen, hu, hstat]
                  | none =>
                    rw [acceptEntry_of_found L w root st e md hu hstat]
                    cases hh1 : hashFile w e with
                    | error err =>
                      simp [earliestFailure, checksInOrder, decodedMeta, List.findSome?, h1, h2,
                        h3, h4, hv, hid, hseen, hu, hstat, hh1]
                    | ok mh =>
                      cases hh2 : hashFile w (joinPath [root, cleanPath md.ContentPath]) with
                      | error err =>
                        simp [earliestFailure, checksInOrder, decodedMeta, List.findSome?, h1,
                          h2, h3, h4, hv, hid, hseen, hu, hstat, hh1, hh2]
                      | ok ch =>
                        simp [earliestFailure, checksInOrder, decodedMeta, List.findSome?, h1,
                          h2, h3, h4, hv, hid, hseen, hu, hstat, hh1, hh2]
          · rw [processEntry_of_version L w sc root st e md hd hv]
            simp [earliestFailure, checksInOrder, decodedMeta, RunState.fail, List.findSome?, h1,
              h2, h3, h4, hv]

theorem earliestFailure_file (L : Lib) (w : World) (sc : Schema) (root : String)
    (seen : List String) (e : String) (m : ValidationMessage)
    (h : earliestFailure L w sc root seen e = some m) : m.File = e := by
  have heq := processEntry_errors_eq L w sc root ⟨[], [], [], [], seen⟩ e
  rw [h] at heq
  simp only [List.nil_append, Option.toList] at heq
  rcases processEntry_cases L w sc root ⟨[], [], [], [], seen⟩ e with
    ⟨msg, hp, hf, _⟩ | ⟨md, _, _, hp⟩
  · rw [hp] at heq
    simp only [RunState.fail, List.nil_append, List.cons.injEq, and_true] at heq
    rw [← heq]
    exact hf
  · obtain ⟨E, A, M, hs, hE, _⟩ := acceptEntry_shape L w root ⟨[], [], [], [], seen⟩ e md
    rw [hp, hs] at heq
    simp only [List.nil_append] at heq
    exact (hE m (by rw [heq]; exact List.mem_singleton.2 rfl)).1

theorem processEntry_artifacts_mono (L : Lib) (w : World) (sc : Schema) (root : String)
    (st : RunState) (e : String) (a : IndexArtifact) (ha : a ∈ st.artifacts) :
    a ∈ (processEntry L w sc root st e).artifacts := by
  rcases processEntry_cases L w sc root st e with ⟨msg, h, _, _⟩ | ⟨md, _, _, h⟩
  · rw [h]
    exact ha
  · obtain ⟨E, A, M, hs, _, _⟩ := acceptEntry_shape L w root st e md
    rw [h, hs]
    exact List.mem_append_left _ ha

theorem foldl_artifacts_mono (L : Lib) (w : World) (sc : Schema) (root : String)
    (es : List String) (st : RunState) (a : IndexArtifact) (ha : a ∈ st.artifacts) :
    a ∈ (es.foldl (processEntry L w sc root) st).artifacts := by
  induction es generalizing st with
  | nil => exact ha
  | cons e es ih => exact ih _ (processEntry_artifacts_mono L w sc root st e a ha)

/-- Every iteration records an error for its file or appends its artifact. -/
theorem processEntry_error_or_artifact (L : Lib) (w : World) (sc : Schema) (root : String)
    (st : RunState) (e : String) :
    (∃ m ∈ (processEntry L w sc root st e).validationErrors, m.File = e) ∨
      ∃ md, reachesDuplicateCheck w sc e md ∧
        indexArtifactOf L md e ∈ (processEntry L w sc root st e).artifacts := by
  rcases processEntry_cases L w sc root st e with ⟨msg, h, hf, _⟩ | ⟨md, hr, _, h⟩
  · left
    rw [h]
    exact ⟨msg, List.mem_append_right _ (List.mem_singleton.2 rfl), hf⟩
  · rw [h]
    cases hu : unsafeContentPath md with
    | true =>
      left
      rw [acceptEntry_of_escaping L w root st e md hu]
      exact ⟨_, List.mem_append_right _ (List.mem_singleton.2 rfl), rfl⟩
    | false =>
      cases hstat : w.stat (joinPath [root, cleanPath md.ContentPath]) with
      | some err =>
        left
        rw [acceptEntry_of_missing L w root st e md err hu hstat]
        exact ⟨_, List.mem_append_right _ (List.mem_singleton.2 rfl), rfl⟩
      | none =>
        right
        rw [acceptEntry_of_found L w root st e md hu hstat]
        exact ⟨md, hr, List.mem_append_right _ (List.mem_singleton.2 rfl)⟩

/-- The files of the recorded errors follow the order of the entries. -/
theorem foldl_error_files (L : Lib) (w : World) (sc : Schema) (root : String)
    (es : List String) (st : RunState) :
    ∃ l, ((es.foldl (processEntry L w sc root) st).validationErrors.map
        ValidationMessage.File) = st.validationErrors.map ValidationMessage.File ++ l ∧
      l.Sublist es := by
  induction es generalizing st with
  | nil => exact ⟨[], by simp, List.Sublist.refl _⟩
  | cons e es ih =>
    obtain ⟨l, hl, hsub⟩ := ih (processEntry L w sc root st e)
    rw [List.foldl_cons, hl, processEntry_errors_eq]
    cases hf : earliestFailure L w sc root st.seenIDs e with
    | none => exact ⟨l, by simp, hsub.cons e⟩
    | some m =>
      refine ⟨e :: l, ?_, hsub.cons₂ e⟩
      simp [earliestFailure_file L w sc root st.seenIDs e m hf]

/-- C12: each discovered file `e` adds at most one error, the one of the
earliest failing check in the order read, parse, schema, decode,
schema_version, identifier grammar, duplicate identifier, content-path safety,
content existence, hashing; it leaves an error for the file or an accepted
artifact built from it; and the files of the error list follow the order of
the sorted entries. -/
theorem one_error_per_file_in_order (L : Lib) (w : World) (config : Config) (sc : Schema)
    (root : String) (pre post : List String) (e : String) (idx : IndexOutput)
    (hs : loadSchema w (joinPath [config.SchemaDir, "artifact_metadata.schema.json"]) = .ok sc)
    (hr : w.getwd = .ok root)
    (he : collectMetadataFiles w config.ArtifactsDir = .ok (pre ++ e :: post))
    (hi : (Run L w config).index = some idx) :
    (processEntry L w sc root (runLoop L w sc root pre) e).validationErrors =
        (runLoop L w sc root pre).validationErrors ++
          (earliestFailure L w sc root (runLoop L w sc root pre).seenIDs e).toList ∧
      ((∃ m ∈ idx.Errors, m.File = e) ∨
        ∃ md, reachesDuplicateCheck w sc e md ∧ indexArtifactOf L md e ∈ idx.Artifacts) ∧
      (idx.Errors.map ValidationMessage.File).Sublist (pre ++ e :: post) ∧
      (idx.Errors.map ValidationMessage.File).Sorted (· ≤ ·) := by
  obtain ⟨hA, _, hE, _, _, _⟩ := Run_index_eq L w config sc root _ idx hs hr he hi
  have hloop : runLoop L w sc root (pre ++ e :: post) =
      post.foldl (processEntry L w sc root)
        (processEntry L w sc root (runLoop L w sc root pre) e) := by
    simp [runLoop, List.foldl_append]
  have hsub : (idx.Errors.map ValidationMessage.File).Sublist (pre ++ e :: post) := by
    obtain ⟨l, hl, hsub⟩ := foldl_error_files L w sc root (pre ++ e :: post) RunState.init
    rw [hE]
    unfold runLoop
    rw [hl]
    exact hsub
  refine ⟨processEntry_errors_eq L w sc root _ e, ?_, hsub, ?_⟩
  · rcases processEntry_error_or_artifact L w sc root (runLoop L w sc root pre) e with
      ⟨m, hm, hf⟩ | ⟨md, hreach, ha⟩
    · left
      exact ⟨m, by rw [hE, hloop]; exact foldl_errors_mono L w sc root post _ m hm, hf⟩
    · right
      refine ⟨md, hreach, ?_⟩
      rw [hA]
      apply (sortSliceBy_perm _ _).mem_iff.2
      rw [hloop]
      exact foldl_artifacts_mono L w sc root post _ _ ha
  · exact (collectMetadataFiles_sorted _ _ _ he).sublist hsub

/-- C12 at `duplicateEscapeWorld`, for its second file. -/
theorem one_error_per_file_in_order_witness :
    (processEntry demoLib duplicateEscapeWorld demoSchema "/repo"
        (runLoop demoLib duplicateEscapeWorld demoSchema "/repo" ["docs/a.metadata.json"])
        "docs/b.metadata.json").validationErrors =
        (runLoop demoLib duplicateEscapeWorld demoSchema "/repo"
            ["docs/a.metadata.json"]).validationErrors ++
          (earliestFailure demoLib duplicateEscapeWorld demoSchema "/repo"
            (runLoop demoLib duplicateEscapeWorld demoSchema "/repo"
              ["docs/a.metadata.json"]).seenIDs "docs/b.metadata.json").toList ∧
      ((∃ m ∈ duplicateEscapeIndex.Errors, m.File = "docs/b.metadata.json") ∨
        ∃ md, reachesDuplicateCheck duplicateEscapeWorld demoSchema "docs/b.metadata.json" md ∧
          indexArtifactOf demoLib md "docs/b.metadata.json" ∈ duplicateEscapeIndex.Artifacts) ∧
      (duplicateEscapeIndex.Errors.map ValidationMessage.File).Sublist
        (["docs/a.metadata.json"] ++ "docs/b.metadata.json" :: []) ∧
      (duplicateEscapeIndex.Errors.map ValidationMessage.File).Sorted (· ≤ ·) :=
  one_error_per_file_in_order demoLib duplicateEscapeWorld demoConfig demoSchema "/repo"
    ["docs/a.metadata.json"] [] "docs/b.metadata.json" duplicateEscapeIndex rfl rfl rfl
    (by decide)

/-! ## The result of `Run` and strict mode -/

/-- The documents written by `writeOutputs` do not depend on the strict flag. -/
theorem writeOutputs_docs_strict (w : World) (config : Config) (st : RunState) (b : Bool) :
    (writeOutputs w { config with Strict := b } st).index = (writeOutputs w config st).index ∧
      (writeOutputs w { config with Strict := b } st).report =
        (writeOutputs w config st).report ∧
      (writeOutputs w { config with Strict := b } st).manifest =
        (writeOutputs w config st).manifest := by
  unfold writeOutputs
  simp only
  cases w.mkdirAll config.OutputDir with
  | some err => exact ⟨rfl, rfl, rfl⟩
  | none =>
    cases writeJSON w (joinPath [config.OutputDir, outputPaths.IndexJSON]) with
    | some err => exact ⟨rfl, rfl, rfl⟩
    | none =>
      cases writeJSON w (joinPath [config.OutputDir, outputPaths.ValidationReport]) with
      | some err => exact ⟨rfl, rfl, rfl⟩
      | none =>
        cases writeJSON w (joinPath [config.OutputDir, outputPaths.ArtifactsManifest]) with
        | some err => exact ⟨rfl, rfl, rfl⟩
        | none =>
          simp only
          split_ifs <;> exact ⟨rfl, rfl, rfl⟩

/-- The documents written by `Run` do not depend on the strict flag. -/
theorem Run_docs_strict (L : Lib) (w : World) (config : Config) (b : Bool) :
    (Run L w { config with Strict := b }).index = (Run L w config).index ∧
      (Run L w { config with Strict := b }).report = (Run L w config).report ∧
      (Run L w { config with Strict := b }).manifest = (Run L w config).manifest := by
  unfold Run
  simp only
  split_ifs with hc
  · exact ⟨rfl, rfl, rfl⟩
  · cases loadSchema w (joinPath [config.SchemaDir, "artifact_metadata.schema.json"]) with
    | error err => exact ⟨rfl, rfl, rfl⟩
    | ok sc =>
      cases w.getwd with
      | error err => exact ⟨rfl, rfl, rfl⟩
      | ok root =>
        cases collectMetadataFiles w config.ArtifactsDir with
        | error err => exact ⟨rfl, rfl, rfl⟩
        | ok entries => exact writeOutputs_docs_strict w config _ b

/-- When `writeOutputs` has written the manifest, it has written the other two
documents, and it returns an error exactly in strict mode with errors. -/
theorem writeOutputs_written (w : World) (config : Config) (st : RunState) (m : Manifest)
    (hm : (writeOutputs w config st).manifest = some m) :
    (writeOutputs w config st).index ≠ none ∧ (writeOutputs w config st).report ≠ none ∧
      ((writeOutputs w config st).err ≠ none ↔
        (config.Strict = true ∧ st.validationErrors ≠ [])) := by
  unfold writeOutputs at hm ⊢
  simp only at hm ⊢
  cases h1 : w.mkdirAll config.OutputDir with
  | some err => rw [h1] at hm; cases hm
  | none =>
    cases h2 : writeJSON w (joinPath [config.OutputDir, outputPaths.IndexJSON]) with
    | some err => rw [h1, h2] at hm; cases hm
    | none =>
      cases h3 : writeJSON w (joinPath [config.OutputDir, outputPaths.ValidationReport]) with
      | some err => rw [h1, h2, h3] at hm; cases hm
      | none =>
        cases h4 : writeJSON w (joinPath [config.OutputDir, outputPaths.ArtifactsManifest]) with
        | some err => rw [h1, h2, h3, h4] at hm; cases hm
        | none =>
          simp only
          split_ifs with hc
          · refine ⟨by simp, by simp, ?_⟩
            simp only [ne_eq, reduceCtorEq, not_false_eq_true, true_iff]
            exact ⟨hc.1, List.ne_nil_of_length_pos hc.2⟩
          · refine ⟨by simp, by simp, ?_⟩
            simp only [ne_eq, not_true_eq_false, false_iff]
            intro h
            exact hc ⟨h.1, List.length_pos_of_ne_nil h.2⟩

/-- When `Run` has written the manifest, every step before succeeded. -/
theorem Run_written (L : Lib) (w : World) (config : Config) (m : Manifest)
    (hm : (Run L w config).manifest = some m) :
    ∃ sc root entries,
      loadSchema w (joinPath [config.SchemaDir, "artifact_metadata.schema.json"]) = .ok sc ∧
      w.getwd = .ok root ∧ collectMetadataFiles w config.ArtifactsDir = .ok entries ∧
      Run L w config = writeOutputs w config (runLoop L w sc root entries) := by
  unfold Run at hm ⊢
  split_ifs at hm ⊢ with hc
  · cases hm
  · cases h1 : loadSchema w (joinPath [config.SchemaDir, "artifact_metadata.schema.json"]) with
    | error err => rw [h1] at hm; cases hm
    | ok sc =>
      cases h2 : w.getwd with
      | error err => rw [h1] at hm; simp only [h2] at hm; cases hm
      | ok root =>
        cases h3 : collectMetadataFiles w config.ArtifactsDir with
        | error err => rw [h1] at hm; simp only [h2, h3] at hm; cases hm
        | ok entries => exact ⟨sc, root, entries, rfl, rfl, rfl, rfl⟩

/-- C13: when configuration, schema loading, directory scanning and output
writing all succeed, so that `Run` has written its documents, `Run` returns an
error exactly when `Strict` is set and the error list is not empty; and the
three documents are the same whether `Strict` is set or not. -/
theorem strict_mode (L : Lib) (w : World) (config : Config) (idx : IndexOutput) (m : Manifest)
    (hi : (Run L w config).index = some idx) (hm : (Run L w config).manifest = some m) :
    (Run L w config).report ≠ none ∧
      ((Run L w config).err ≠ none ↔ (config.Strict = true ∧ idx.Errors ≠ [])) ∧
      (Run L w { config with Strict := true }).index =
        (Run L w { config with Strict := false }).index ∧
      (Run L w { config with Strict := true }).report =
        (Run L w { config with Strict := false }).report ∧
      (Run L w { config with Strict := true }).manifest =
        (Run L w { config with Strict := false }).manifest := by
  obtain ⟨sc, root, entries, hs, hr, he, hrun⟩ := Run_written L w config m hm
  obtain ⟨_, _, hE, _, _, _⟩ := Run_index_eq L w config sc root entries idx hs hr he hi
  rw [hrun] at hm
  obtain ⟨_, h2, h3⟩ := writeOutputs_written w config _ m hm
  obtain ⟨a1, a2, a3⟩ := Run_docs_strict L w config true
  obtain ⟨b1, b2, b3⟩ := Run_docs_strict L w config false
  refine ⟨by rw [hrun]; exact h2, ?_, a1.trans b1.symm, a2.trans b2.symm, a3.trans b3.symm⟩
  rw [hrun, hE]
  exact h3

/-- C13 at `duplicateEscapeWorld` in strict mode, where `Run` fails after writing. -/
theorem strict_mode_witness :
    (Run demoLib duplicateEscapeWorld strictConfig).report ≠ none ∧
      ((Run demoLib duplicateEscapeWorld strictConfig).err ≠ none ↔
        (strictConfig.Strict = true ∧ duplicateEscapeIndex.Errors ≠ [])) ∧
      (Run demoLib duplicateEscapeWorld { strictConfig with Strict := true }).index =
        (Run demoLib duplicateEscapeWorld { strictConfig with Strict := false }).index ∧
      (Run demoLib duplicateEscapeWorld { strictConfig with Strict := true }).report =
        (Run demoLib duplicateEscapeWorld { strictConfig with Strict := false }).report ∧
      (Run demoLib duplicateEscapeWorld { strictConfig with Strict := true }).manifest =
        (Run demoLib duplicateEscapeWorld { strictConfig with Strict := false }).manifest :=
  strict_mode demoLib duplicateEscapeWorld strictConfig duplicateEscapeIndex ⟨[]⟩
    (by decide) (by decide)

/-! ## An empty artifacts directory -/

theorem collectLoop_noerr (calls : List WalkCall) (acc : List String)
    (h : ∀ c ∈ calls, c.err = none) :
    collectLoop calls acc = .ok (acc ++ (calls.filter
      (fun c => !c.isDir && HasSuffix c.name ".metadata.json")).map WalkCall.path) := by
  induction calls generalizing acc with
  | nil => simp [collectLoop]
  | cons c cs ih =>
    have hc : c.err = none := h c (List.mem_cons_self _ _)
    have hcs : ∀ c' ∈ cs, c'.err = none := fun c' hc' => h c' (List.mem_cons_of_mem _ hc')
    unfold collectLoop
    rw [hc]
    simp only
    cases hd : c.isDir with
    | true => simp [ih _ hcs, List.filter_cons, hd]
    | false =>
      cases hsuf : HasSuffix c.name ".metadata.json" with
      | true => simp [ih _ hcs, List.filter_cons, hd, hsuf]
      | false => simp [ih _ hcs, List.filter_cons, hd, hsuf]

theorem writeOutputs_init (w : World) (config : Config) (m : Manifest)
    (hm : (writeOutputs w config RunState.init).manifest = some m) :
    writeOutputs w config RunState.init =
      ⟨some { SchemaVersion := "1.0.0", ToolVersion := "0.1.0", ArtifactCount := 0,
              Warnings := [], Errors := [], OutputPaths := outputPaths, Manifest := ⟨[]⟩,
              Artifacts := [] },
        some { SchemaVersion := "1.0.0", ToolVersion := "0.1.0",
               GeneratedAt := reportTimestamp w, Warnings := [], Errors := [] },
        some ⟨[]⟩, none⟩ := by
  unfold writeOutputs at hm ⊢
  simp only at hm ⊢
  cases h1 : w.mkdirAll config.OutputDir with
  | some err => rw [h1] at hm; cases hm
  | none =>
    cases h2 : writeJSON w (joinPath [config.OutputDir, outputPaths.IndexJSON]) with
    | some err => rw [h1, h2] at hm; cases hm
    | none =>
      cases h3 : writeJSON w (joinPath [config.OutputDir, outputPaths.ValidationReport]) with
      | some err => rw [h1, h2, h3] at hm; cases hm
      | none =>
        cases h4 : writeJSON w (joinPath [config.OutputDir, outputPaths.ArtifactsManifest]) with
        | some err => rw [h1, h2, h3, h4] at hm; cases hm
        | none =>
          simp only
          rw [if_neg (by simp [RunState.init])]
          rfl

/-- C15: over an artifacts directory whose walk succeeds and finds no file
named `*.metadata.json`, a run that writes its documents writes an index with
`artifact_count` 0, no artifact, no manifest entry, no warning and no error,
an empty manifest, and returns success, whatever the strict flag. -/
theorem empty_directory (L : Lib) (w : World) (config : Config) (m : Manifest)
    (hwalk : ∀ c ∈ w.walkDir config.ArtifactsDir,
      c.err = none ∧ (c.isDir = true ∨ HasSuffix c.name ".metadata.json" = false))
    (hm : (Run L w config).manifest = some m) :
    Run L w config =
      ⟨some { SchemaVersion := "1.0.0", ToolVersion := "0.1.0", ArtifactCount := 0,
              Warnings := [], Errors := [], OutputPaths := outputPaths, Manifest := ⟨[]⟩,
              Artifacts := [] },
        some { SchemaVersion := "1.0.0", ToolVersion := "0.1.0",
               GeneratedAt := reportTimestamp w, Warnings := [], Errors := [] },
        some ⟨[]⟩, none⟩ := by
  obtain ⟨sc, root, entries, hs, hr, he, hrun⟩ := Run_written L w config m hm
  have hnil : entries = [] := by
    unfold collectMetadataFiles at he
    rw [collectLoop_noerr _ _ (fun c hc => (hwalk c hc).1)] at he
    have hf : (w.walkDir config.ArtifactsDir).filter
        (fun c => !c.isDir && HasSuffix c.name ".metadata.json") = [] := by
      rw [List.filter_eq_nil_iff]
      intro c hc
      rcases (hwalk c hc).2 with h | h <;> simp [h]
    simp only [hf, List.map_nil, List.append_nil, Except.ok.injEq] at he
    exact he.symm
  subst hnil
  rw [hrun] at hm ⊢
  exact writeOutputs_init w config m hm

/-- C15 at `noMetadataWorld` in strict mode. -/
theorem empty_directory_witness :
    Run demoLib noMetadataWorld strictConfig =
      ⟨some { SchemaVersion := "1.0.0", ToolVersion := "0.1.0", ArtifactCount := 0,
              Warnings := [], Errors := [], OutputPaths := outputPaths, Manifest := ⟨[]⟩,
              Artifacts := [] },
        some { SchemaVersion := "1.0.0", ToolVersion := "0.1.0",
               GeneratedAt := reportTimestamp noMetadataWorld, Warnings := [], Errors := [] },
        some ⟨[]⟩, none⟩ :=
  empty_directory demoLib noMetadataWorld strictConfig ⟨[]⟩ (by decide) (by decide)

/-! ## Determinism -/

theorem collectMetadataFiles_perm (w : World) (walk2 : String → List WalkCall) (now2 : String)
    (root : String) (hperm : (w.walkDir root).Perm (walk2 root))
    (hnoerr : ∀ c ∈ w.walkDir root, c.err = none) :
    collectMetadataFiles { w with walkDir := walk2, nowRFC3339 := now2 } root =
      collectMetadataFiles w root := by
  have hnoerr2 : ∀ c ∈ walk2 root, c.err = none :=
    fun c hc => hnoerr c (hperm.mem_iff.2 hc)
  unfold collectMetadataFiles
  simp only
  rw [collectLoop_noerr _ _ hnoerr, collectLoop_noerr _ _ hnoerr2]
  simp only [List.nil_append, Except.ok.injEq]
  have hp : (((walk2 root).filter
      (fun c => !c.isDir && HasSuffix c.name ".metadata.json")).map WalkCall.path).Perm
      (((w.walkDir root).filter
        (fun c => !c.isDir && HasSuffix c.name ".metadata.json")).map WalkCall.path) :=
    ((hperm.symm.filter _).map _)
  have hp' := ((sortStrings_perm _).trans hp).trans (sortStrings_perm _).symm
  exact List.eq_of_perm_of_sorted hp' (sortStrings_sorted _) (sortStrings_sorted _)

theorem runLoop_walk (L : Lib) (w : World) (walk2 : String → List WalkCall) (now2 : String)
    (sc : Schema) (root : String) (entries : List String) :
    runLoop L { w with walkDir := walk2, nowRFC3339 := now2 } sc root entries =
      runLoop L w sc root entries := rfl

theorem writeOutputs_walk (w : World) (walk2 : String → List WalkCall) (now2 : String)
    (config : Config) (st : RunState) (seconds : Int)
    (hepoch : w.getenv "SOURCE_DATE_EPOCH" ≠ "")
    (hparse : w.parseInt (w.getenv "SOURCE_DATE_EPOCH") = some seconds) :
    writeOutputs { w with walkDir := walk2, nowRFC3339 := now2 } config st =
      writeOutputs w config st := by
  have ht : reportTimestamp { w with walkDir := walk2, nowRFC3339 := now2 } =
      reportTimestamp w := by
    unfold reportTimestamp
    simp only [hepoch, ne_eq, not_false_eq_true, if_true, hparse]
  unfold writeOutputs
  simp only [ht]
  rfl

/-- C16: with a fixed timestamp override, the result of `Run`, and with it the
three documents, is the same for two runs over the same files that differ in
the order in which the walk finds the files and in the current time:
`collectMetadataFiles` returns the same sorted list of paths in both. -/
theorem deterministic_outputs (L : Lib) (w : World) (walk2 : String → List WalkCall)
    (now2 : String) (config : Config) (seconds : Int)
    (hperm : (w.walkDir config.ArtifactsDir).Perm (walk2 config.ArtifactsDir))
    (hnoerr : ∀ c ∈ w.walkDir config.ArtifactsDir, c.err = none)
    (hepoch : w.getenv "SOURCE_DATE_EPOCH" ≠ "")
    (hparse : w.parseInt (w.getenv "SOURCE_DATE_EPOCH") = some seconds) :
    Run L { w with walkDir := walk2, nowRFC3339 := now2 } config = Run L w config ∧
      ∃ entries, entries.Sorted (· ≤ ·) ∧
        collectMetadataFiles w config.ArtifactsDir = .ok entries ∧
        collectMetadataFiles { w with walkDir := walk2, nowRFC3339 := now2 }
          config.ArtifactsDir = .ok entries := by
  have hcol : ∃ entries, collectMetadataFiles w config.ArtifactsDir = .ok entries := by
    unfold collectMetadataFiles
    rw [collectLoop_noerr _ _ hnoerr]
    exact ⟨_, rfl⟩
  obtain ⟨entries, hent⟩ := hcol
  refine ⟨?_, entries, collectMetadataFiles_sorted _ _ _ hent, hent,
    (collectMetadataFiles_perm w walk2 now2 _ hperm hnoerr).trans hent⟩
  have hload : loadSchema { w with walkDir := walk2, nowRFC3339 := now2 }
      (joinPath [config.SchemaDir, "artifact_metadata.schema.json"]) =
      loadSchema w (joinPath [config.SchemaDir, "artifact_metadata.schema.json"]) := rfl
  have hout : ∀ sc root entries,
      writeOutputs { w with walkDir := walk2, nowRFC3339 := now2 } config
          (runLoop L { w with walkDir := walk2, nowRFC3339 := now2 } sc root entries) =
        writeOutputs w config (runLoop L w sc root entries) := by
    intro sc root entries
    rw [runLoop_walk, writeOutputs_walk w walk2 now2 config _ seconds hepoch hparse]
  unfold Run
  simp only [hload, collectMetadataFiles_perm w walk2 now2 _ hperm hnoerr, hout]

/-- C16 at `twoFilesWorld` and `twoFilesWorldLater`. -/
theorem deterministic_outputs_witness :
    Run demoLib twoFilesWorldLater demoConfig = Run demoLib twoFilesWorld demoConfig ∧
      ∃ entries, entries.Sorted (· ≤ ·) ∧
        collectMetadataFiles twoFilesWorld demoConfig.ArtifactsDir = .ok entries ∧
        collectMetadataFiles twoFilesWorldLater demoConfig.ArtifactsDir = .ok entries :=
  deterministic_outputs demoLib twoFilesWorld
    (fun _ =>
      [⟨"docs/a.metadata.json", "docs/a.metadata.json", false, none⟩,
       ⟨"docs/b.metadata.json", "docs/b.metadata.json", false, none⟩])
    "2025-06-30T12:00:00Z" demoConfig 0 (List.Perm.swap _ _ _) (by decide) (by decide) rfl

/-! ## Warnings never block acceptance -/

theorem sameAcceptance_fail (s t : RunState) (msg : ValidationMessage)
    (h : sameAcceptance s t) : sameAcceptance (s.fail msg) (t.fail msg) := by
  obtain ⟨h1, h2, h3, h4⟩ := h
  exact ⟨by simp [RunState.fail, h1], h2, h3, h4⟩

theorem acceptEntry_sameAcceptance (L : Lib) (w1 w2 : World) (root : String) (s t : RunState)
    (e : String) (md1 md2 : ArtifactMetadata) (hst : sameAcceptance s t)
    (hmd : sameExceptLists md1 md2)
    (hstat : ∀ p, w1.stat p = w2.stat p) (hhash : ∀ p, sameHashOutcome w1 w2 p)
    (hrel : ∀ a b, w1.rel a b = w2.rel a b) :
    sameAcceptance (acceptEntry L w1 root s e md1) (acceptEntry L w2 root t e md2) := by
  obtain ⟨h1, h2, h3, h4⟩ := hst
  have hID : md2.ID = md1.ID := by rw [hmd]
  have hCP : md2.ContentPath = md1.ContentPath := by rw [hmd]
  have hu : unsafeContentPath md2 = unsafeContentPath md1 := by
    unfold unsafeContentPath
    rw [hCP]
  have hrp : ∀ p, relativePath w1 root p = relativePath w2 root p := by
    intro p
    unfold relativePath
    rw [hrel]
  cases hu1 : unsafeContentPath md1 with
  | true =>
    rw [acceptEntry_of_escaping L w1 root s e md1 hu1,
      acceptEntry_of_escaping L w2 root t e md2 (hu.trans hu1)]
    exact ⟨by simp [h1, hID], h2, h3, by simp [h4, hID]⟩
  | false =>
    cases hs1 : w1.stat (joinPath [root, cleanPath md1.ContentPath]) with
    | some err =>
      have hs2 : w2.stat (joinPath [root, cleanPath md2.ContentPath]) = some err := by
        rw [hCP, ← hstat, hs1]
      rw [acceptEntry_of_missing L w1 root s e md1 err hu1 hs1,
        acceptEntry_of_missing L w2 root t e md2 err (hu.trans hu1) hs2]
      exact ⟨by simp [h1, hID], h2, h3, by simp [h4, hID]⟩
    | none =>
      have hs2 : w2.stat (joinPath [root, cleanPath md2.ContentPath]) = none := by
        rw [hCP, ← hstat, hs1]
      rw [acceptEntry_of_found L w1 root s e md1 hu1 hs1,
        acceptEntry_of_found L w2 root t e md2 (hu.trans hu1) hs2, hCP]
      have hart : (indexArtifactOf L md2 e).ID = (indexArtifactOf L md1 e).ID := hID
      rcases hhash e with ⟨a1, a2, ha1, ha2⟩ | ⟨err, ha1, ha2⟩
      · rcases hhash (joinPath [root, cleanPath md1.ContentPath]) with
          ⟨b1, b2, hb1, hb2⟩ | ⟨err, hb1, hb2⟩
        · simp only [ha1, ha2, hb1, hb2]
          exact ⟨by simp [h1], by simp [h2, hart], by simp [h3, hrp], by simp [h4, hID]⟩
        · simp only [ha1, ha2, hb1, hb2]
          exact ⟨by simp [h1, hID], by simp [h2, hart], by simp [h3], by simp [h4, hID]⟩
      · simp only [ha1, ha2]
        exact ⟨by simp [h1, hID], by simp [h2, hart], by simp [h3], by simp [h4, hID]⟩

theorem processEntry_sameAcceptance (L : Lib) (w1 w2 : World) (sc : Schema) (root : String)
    (s t : RunState) (e : String) (hst : sameAcceptance s t)
    (hdec : sameUpToLists w1 w2 sc e)
    (hstat : ∀ p, w1.stat p = w2.stat p) (hhash : ∀ p, sameHashOutcome w1 w2 p)
    (hrel : ∀ a b, w1.rel a b = w2.rel a b) :
    sameAcceptance (processEntry L w1 sc root s e) (processEntry L w2 sc root t e) := by
  have hseen : s.seenIDs = t.seenIDs := hst.2.2.2
  have key : ∀ md1 md2, decodeEntry w1 sc e = .ok md1 → decodeEntry w2 sc e = .ok md2 →
      sameExceptLists md1 md2 →
      sameAcceptance (processEntry L w1 sc root s e) (processEntry L w2 sc root t e) := by
    intro md1 md2 hd1 hd2 hmd
    have hID : md2.ID = md1.ID := by rw [hmd]
    have hSV : md2.SchemaVersion = md1.SchemaVersion := by rw [hmd]
    by_cases hv : md1.SchemaVersion = metadataSchemaVersion
    · cases hid : isValidID md1.ID with
      | false =>
        rw [processEntry_of_invalid L w1 sc root s e md1 hd1 hv hid,
          processEntry_of_invalid L w2 sc root t e md2 hd2 (hSV.trans hv) (by rw [hID, hid]), hID]
        exact sameAcceptance_fail _ _ _ hst
      | true =>
        by_cases hs : md1.ID ∈ s.seenIDs
        · rw [processEntry_of_seen L w1 sc root s e md1 ⟨hd1, hv, hid⟩ hs,
            processEntry_of_seen L w2 sc root t e md2 ⟨hd2, hSV.trans hv, by rw [hID, hid]⟩
              (by rw [hID, ← hseen]; exact hs), hID]
          exact sameAcceptance_fail _ _ _ hst
        · rw [processEntry_of_fresh L w1 sc root s e md1 ⟨hd1, hv, hid⟩ hs,
            processEntry_of_fresh L w2 sc root t e md2 ⟨hd2, hSV.trans hv, by rw [hID, hid]⟩
              (by rw [hID, ← hseen]; exact hs)]
          exact acceptEntry_sameAcceptance L w1 w2 root s t e md1 md2 hst hmd hstat hhash hrel
    · rw [processEntry_of_version L w1 sc root s e md1 hd1 hv,
        processEntry_of_version L w2 sc root t e md2 hd2 (by rw [hSV]; exact hv), hID, hSV]
      exact sameAcceptance_fail _ _ _ hst
  rcases hdec with heq | ⟨md1, md2, hd1, hd2, hmd⟩
  · cases hd1 : decodeEntry w1 sc e with
    | error msg =>
      rw [processEntry_of_error L w1 sc root s e msg hd1,
        processEntry_of_error L w2 sc root t e msg (heq ▸ hd1)]
      exact sameAcceptance_fail _ _ _ hst
    | ok md => exact key md md hd1 (heq ▸ hd1) rfl
  · exact key md1 md2 hd1 hd2 hmd

theorem foldl_sameAcceptance (L : Lib) (w1 w2 : World) (sc : Schema) (root : String)
    (es : List String) (s t : RunState) (hst : sameAcceptance s t)
    (hdec : ∀ e ∈ es, sameUpToLists w1 w2 sc e)
    (hstat : ∀ p, w1.stat p = w2.stat p) (hhash : ∀ p, sameHashOutcome w1 w2 p)
    (hrel : ∀ a b, w1.rel a b = w2.rel a b) :
    sameAcceptance (es.foldl (processEntry L w1 sc root) s)
      (es.foldl (processEntry L w2 sc root) t) := by
  induction es generalizing s t with
  | nil => exact hst
  | cons e es ih =>
    exact ih _ _ (processEntry_sameAcceptance L w1 w2 sc root s t e hst
        (hdec e (List.mem_cons_self _ _)) hstat hhash hrel)
      (fun e' he' => hdec e' (List.mem_cons_of_mem _ he'))

theorem map_sortSliceBy {α : Type} (key : α → String) (l : List α) :
    (sortSliceBy key l).map key = sortStrings (l.map key) :=
  List.map_insertionSort (r := fun a b => strLE (key a) (key b)) (s := strLE) key l
    (fun _ _ _ _ => Iff.rfl)

/-- C17: warnings never block acceptance: two runs over the same entries whose
worlds differ at most in the `tags`, `categories` and `tools_supported` lists
of files that decode in both (and in nothing else the loop observes) record
the same errors, put artifacts with the same identifiers into the index, and
put the same paths into the manifest. -/
theorem warnings_never_block (L : Lib) (w1 w2 : World) (config : Config) (sc : Schema)
    (root : String) (entries : List String) (idx1 idx2 : IndexOutput)
    (hs1 : loadSchema w1 (joinPath [config.SchemaDir, "artifact_metadata.schema.json"]) = .ok sc)
    (hs2 : loadSchema w2 (joinPath [config.SchemaDir, "artifact_metadata.schema.json"]) = .ok sc)
    (hr1 : w1.getwd = .ok root) (hr2 : w2.getwd = .ok root)
    (he1 : collectMetadataFiles w1 config.ArtifactsDir = .ok entries)
    (he2 : collectMetadataFiles w2 config.ArtifactsDir = .ok entries)
    (hi1 : (Run L w1 config).index = some idx1) (hi2 : (Run L w2 config).index = some idx2)
    (hdec : ∀ e ∈ entries, sameUpToLists w1 w2 sc e)
    (hstat : ∀ p, w1.stat p = w2.stat p) (hhash : ∀ p, sameHashOutcome w1 w2 p)
    (hrel : ∀ a b, w1.rel a b = w2.rel a b) :
    idx1.Errors = idx2.Errors ∧
      idx1.Artifacts.map IndexArtifact.ID = idx2.Artifacts.map IndexArtifact.ID ∧
      idx1.Manifest.Files.map ManifestFile.Path = idx2.Manifest.Files.map ManifestFile.Path := by
  obtain ⟨a1, m1, e1, _, _, _⟩ := Run_index_eq L w1 config sc root entries idx1 hs1 hr1 he1 hi1
  obtain ⟨a2, m2, e2, _, _, _⟩ := Run_index_eq L w2 config sc root entries idx2 hs2 hr2 he2 hi2
  obtain ⟨k1, k2, k3, _⟩ := foldl_sameAcceptance L w1 w2 sc root entries RunState.init
    RunState.init ⟨rfl, rfl, rfl, rfl⟩ hdec hstat hhash hrel
  refine ⟨?_, ?_, ?_⟩
  · rw [e1, e2]
    exact k1
  · rw [a1, a2, map_sortSliceBy, map_sortSliceBy]
    exact congrArg sortStrings k2
  · rw [m1, m2, map_sortSliceBy, map_sortSliceBy]
    exact congrArg sortStrings k3

/-- C17 at `taggedWorld` and `untaggedWorld`. -/
theorem warnings_never_block_witness :
    taggedIndex.Errors = untaggedIndex.Errors ∧
      taggedIndex.Artifacts.map IndexArtifact.ID =
        untaggedIndex.Artifacts.map IndexArtifact.ID ∧
      taggedIndex.Manifest.Files.map ManifestFile.Path =
        untaggedIndex.Manifest.Files.map ManifestFile.Path :=
  warnings_never_block demoLib taggedWorld untaggedWorld demoConfig demoSchema "/repo"
    ["docs/api-keys.metadata.json"] taggedIndex untaggedIndex rfl rfl rfl rfl rfl rfl
    (by decide) (by decide)
    (fun e he => by
      rw [List.mem_singleton] at he
      subst he
      exact Or.inr ⟨_, _, rfl, rfl, rfl⟩)
    (fun _ => rfl) (fun _ => Or.inl ⟨_, _, rfl, rfl⟩) (fun _ _ => rfl)

end KeysIndexer
